import Mathlib

/-!
Verification of the archaeologist platform specification against a shallow
embedding of the repository's Python source.  Each section embeds the data
model and operations of one component, translated from the source files
named in the comments, and the theorems at the end of the file settle the
spec claims about them.
-/

namespace Archaeologist

/-! ## Authentication (src/api/app/routes/auth.py, src/api/app/auth_service.py)

The login route fetches the user row by username, rejects with HTTP 401 when
the row is absent or inactive, then (only for usernames other than the
literal string "anonymous") rejects with 401 when the password does not
verify against the stored bcrypt hash; otherwise it issues a token for the
user.  bcrypt verification (`AuthService.verify_password`, which delegates
to passlib) is embedded as an oracle parameter `verifyPassword`. -/

structure UserRow where
  username : String
  hashedPassword : String
  isActive : Bool
  deriving DecidableEq, Repr

/-- HTTP 401 as raised by the login route. -/
inductive AuthError where
  | http401
  deriving DecidableEq, Repr

/-- Embedding of `login` (src/api/app/routes/auth.py lines 35-86); the
returned `UserRow` stands for the issued token response, whose token is
created from exactly that user record. -/
def login (verifyPassword : String → String → Bool) (db : List UserRow)
    (username password : String) : Except AuthError UserRow :=
  match db.find? (fun u => u.username == username) with
  | none => .error .http401
  | some user =>
    if !user.isActive then .error .http401
    else if username ≠ "anonymous" && !(verifyPassword password user.hashedPassword) then
      .error .http401
    else .ok user

/-! ## Configuration loader (src/api/app/config.py, src/scanner/app/config.py)

`Settings.__init__` reads environment variables once.  It raises a
`ValueError` only when `NODE_ENV` or `COMPOSE_PROJECT_NAME` is absent (API
variant) or additionally when `SCANNER_PORT` is absent (scanner variant).
Every other variable either falls back to a literal default, stays `None`
(`LLM_API_URL`, `LLM_API_KEY`, `JWT_SECRET_KEY`, ...) or is parsed with
`int(...)`, which raises only on a malformed *present* value.  The
environment is embedded as a partial map; `int(...)` failure is the
`badInt` error.  Defaulted string settings that can never raise are
carried where a claim needs them and omitted otherwise. -/

def Env : Type := String → Option String

inductive ConfigError where
  | missing (key : String)
  | badInt (key : String)
  deriving DecidableEq, Repr

/-- `os.getenv(k)` followed by the `is required` check. -/
def requireEnv (env : Env) (key : String) : Except ConfigError String :=
  match env key with
  | none => .error (.missing key)
  | some v => .ok v

/-- `int(os.getenv(k, default))`: absent means the literal default, a
present value must parse as an integer. -/
def envIntD (env : Env) (key : String) (dflt : Nat) : Except ConfigError Nat :=
  match env key with
  | none => .ok dflt
  | some s =>
    match s.toNat? with
    | some n => .ok n
    | none => .error (.badInt key)

/-- `os.getenv(k, default)` for string settings. -/
def envStrD (env : Env) (key : String) (dflt : String) : String :=
  (env key).getD dflt

/-- The settings fields of src/api/app/config.py that a claim touches;
the remaining string-valued fields all have literal defaults and cannot
raise, so they are not carried. -/
structure SettingsApi where
  nodeEnv : String
  composeProjectName : String
  webPort : Nat
  vectordbHost : String
  vectordbPort : Nat
  embeddingDimension : Nat
  maxContextLength : Nat
  chunkSize : Nat
  chunkOverlap : Nat
  minChunkSize : Nat
  maxEmbeddingBatchSize : Nat
  llmApiUrl : Option String
  llmApiKey : Option String
  jwtSecretKey : Option String
  jwtAccessTokenExpireMinutes : Nat
  jwtRefreshTokenExpireDays : Nat
  redisPort : Nat
  redisDb : Nat
  jobResultTtl : Nat
  jobTimeout : Nat
  jobPollInterval : Nat
  deriving DecidableEq, Repr

/-- Embedding of `Settings.__init__` from src/api/app/config.py: the two
required checks run first, then every `int(...)`-parsed variable in source
order; string-valued settings with defaults cannot raise. -/
def mkSettingsApi (env : Env) : Except ConfigError SettingsApi := do
  let nodeEnv ← requireEnv env "NODE_ENV"
  let compose ← requireEnv env "COMPOSE_PROJECT_NAME"
  let webPort ← envIntD env "WEB_PORT" 8000
  let vhost := envStrD env "VECTORDB_HOST" "localhost"
  let vport ← envIntD env "VECTORDB_PORT" 6333
  let embDim ← envIntD env "EMBEDDING_DIMENSION" 384
  let maxCtx ← envIntD env "MAX_CONTEXT_LENGTH" 512
  let csize ← envIntD env "CHUNK_SIZE" 512
  let cover ← envIntD env "CHUNK_OVERLAP" 50
  let cmin ← envIntD env "MIN_CHUNK_SIZE" 100
  let cbatch ← envIntD env "MAX_EMBEDDING_BATCH_SIZE" 32
  let accessMin ← envIntD env "JWT_ACCESS_TOKEN_EXPIRE_MINUTES" 15
  let refreshDays ← envIntD env "JWT_REFRESH_TOKEN_EXPIRE_DAYS" 7
  let rport ← envIntD env "REDIS_PORT" 6379
  let rdb ← envIntD env "REDIS_DB" 0
  let jttl ← envIntD env "JOB_RESULT_TTL" 86400
  let jtimeout ← envIntD env "JOB_TIMEOUT" 3600
  let jpoll ← envIntD env "JOB_POLL_INTERVAL" 5
  .ok {
    nodeEnv := nodeEnv
    composeProjectName := compose
    webPort := webPort
    vectordbHost := vhost
    vectordbPort := vport
    embeddingDimension := embDim
    maxContextLength := maxCtx
    chunkSize := csize
    chunkOverlap := cover
    minChunkSize := cmin
    maxEmbeddingBatchSize := cbatch
    llmApiUrl := env "LLM_API_URL"
    llmApiKey := env "LLM_API_KEY"
    jwtSecretKey := env "JWT_SECRET_KEY"
    jwtAccessTokenExpireMinutes := accessMin
    jwtRefreshTokenExpireDays := refreshDays
    redisPort := rport
    redisDb := rdb
    jobResultTtl := jttl
    jobTimeout := jtimeout
    jobPollInterval := jpoll }

/-- The settings fields of src/scanner/app/config.py that a claim touches. -/
structure SettingsScanner where
  nodeEnv : String
  composeProjectName : String
  scannerPort : Nat
  vectordbHost : String
  vectordbPort : Nat
  embeddingDimension : Nat
  maxContextLength : Nat
  chunkSize : Nat
  chunkOverlap : Nat
  minChunkSize : Nat
  maxEmbeddingBatchSize : Nat
  llmApiUrl : Option String
  llmApiKey : Option String
  deriving DecidableEq, Repr

/-- Embedding of `Settings.__init__` from src/scanner/app/config.py:
`NODE_ENV`, `COMPOSE_PROJECT_NAME` and `SCANNER_PORT` are required (the
port is then parsed with `int(...)`); everything else has a default or
stays `None`. -/
def mkSettingsScanner (env : Env) : Except ConfigError SettingsScanner := do
  let nodeEnv ← requireEnv env "NODE_ENV"
  let compose ← requireEnv env "COMPOSE_PROJECT_NAME"
  let sport ←
    match env "SCANNER_PORT" with
    | none => .error (.missing "SCANNER_PORT")
    | some s =>
      match s.toNat? with
      | some n => Except.ok n
      | none => .error (.badInt "SCANNER_PORT")
  let embDim ← envIntD env "EMBEDDING_DIMENSION" 384
  let maxCtx ← envIntD env "MAX_CONTEXT_LENGTH" 512
  let csize ← envIntD env "CHUNK_SIZE" 512
  let cover ← envIntD env "CHUNK_OVERLAP" 50
  let cmin ← envIntD env "MIN_CHUNK_SIZE" 100
  let cbatch ← envIntD env "MAX_EMBEDDING_BATCH_SIZE" 32
  let vhost := envStrD env "VECTORDB_HOST" "localhost"
  let vport ← envIntD env "VECTORDB_PORT" 6333
  .ok {
    nodeEnv := nodeEnv
    composeProjectName := compose
    scannerPort := sport
    vectordbHost := vhost
    vectordbPort := vport
    embeddingDimension := embDim
    maxContextLength := maxCtx
    chunkSize := csize
    chunkOverlap := cover
    minChunkSize := cmin
    maxEmbeddingBatchSize := cbatch
    llmApiUrl := env "LLM_API_URL"
    llmApiKey := env "LLM_API_KEY" }

/-- The environment variables the two config files parse with `int(...)`. -/
def apiIntKeys : List String :=
  ["WEB_PORT", "VECTORDB_PORT", "EMBEDDING_DIMENSION", "MAX_CONTEXT_LENGTH",
   "CHUNK_SIZE", "CHUNK_OVERLAP", "MIN_CHUNK_SIZE", "MAX_EMBEDDING_BATCH_SIZE",
   "JWT_ACCESS_TOKEN_EXPIRE_MINUTES", "JWT_REFRESH_TOKEN_EXPIRE_DAYS",
   "REDIS_PORT", "REDIS_DB", "JOB_RESULT_TTL", "JOB_TIMEOUT", "JOB_POLL_INTERVAL"]

/-- The scanner config's `int(...)`-parsed variables. -/
def scannerIntKeys : List String :=
  ["SCANNER_PORT", "EMBEDDING_DIMENSION", "MAX_CONTEXT_LENGTH",
   "CHUNK_SIZE", "CHUNK_OVERLAP", "MIN_CHUNK_SIZE", "MAX_EMBEDDING_BATCH_SIZE",
   "VECTORDB_PORT"]

/-- An environment in which every present value of an `int(...)`-parsed
variable is numeric, so only the `is required` checks can raise. -/
def WellFormedInts (keys : List String) (env : Env) : Prop :=
  ∀ k ∈ keys, ∀ s, env k = some s → (s.toNat?).isSome

/-- An environment carrying only the two variables the API config actually
requires; every other variable — the vector-db host and port and the LLM
API URL among them — is absent. -/
def envOnlyRequired : Env := fun k =>
  if k = "NODE_ENV" then some "production"
  else if k = "COMPOSE_PROJECT_NAME" then some "archaeologist"
  else none

/-! ## Project membership (src/api/app/routes/projects.py, src/api/db/sqlite.py)

A project's membership rows (`project_users`): the store returns only rows
with `is_active = TRUE` from `get_project_users` and
`get_user_project_role`, and `remove_user_from_project` soft-deletes by
setting `is_active = FALSE`.  The DELETE route first resolves the caller's
role (404 when absent), forbids non-admin/non-owner callers from removing
others (403), and applies the last-owner guard — which the source keys on
the *caller's* role — before delegating to the store. -/

inductive ProjectRole where
  | owner | admin | member | viewer
  deriving DecidableEq, Repr

structure Membership where
  userId : Nat
  role : ProjectRole
  isActive : Bool
  deriving DecidableEq, Repr

/-- `get_user_project_role` (src/api/db/sqlite.py lines 408-416): role of
the user's active membership row, absent otherwise. -/
def getUserProjectRole (ms : List Membership) (uid : Nat) : Option ProjectRole :=
  (ms.find? (fun m => m.userId == uid && m.isActive)).map (·.role)

/-- `get_project_users` (src/api/db/sqlite.py lines 398-406): all active
membership rows. -/
def getProjectUsers (ms : List Membership) : List Membership :=
  ms.filter (·.isActive)

/-- `remove_user_from_project` on the store (src/api/db/sqlite.py lines
388-396): sets `is_active = FALSE` on the user's rows. -/
def dbRemoveUserFromProject (ms : List Membership) (uid : Nat) : List Membership :=
  ms.map (fun m => if m.userId == uid then { m with isActive := false } else m)

inductive ApiError where
  | notFound404 | forbidden403 | badRequest400
  deriving DecidableEq, Repr

/-- The active owners of a project, as the route computes them:
`[pu for pu in project_users if pu.role == ProjectRole.OWNER]`. -/
def activeOwners (ms : List Membership) : List Membership :=
  (getProjectUsers ms).filter (fun pu => pu.role == ProjectRole.owner)

/-- Embedding of the DELETE /api/v1/projects/{id}/users/{uid} handler
`remove_user_from_project` (src/api/app/routes/projects.py lines 569-598),
including `check_project_access` with no required-role list (lines
263-300). -/
def removeUserFromProject (ms : List Membership) (currentUserId userId : Nat) :
    Except ApiError (List Membership) :=
  match getUserProjectRole ms currentUserId with
  | none => .error .notFound404
  | some userRole =>
    if userId ≠ currentUserId ∧ userRole ≠ ProjectRole.owner ∧ userRole ≠ ProjectRole.admin then
      .error .forbidden403
    else if userRole = ProjectRole.owner ∧ (activeOwners ms).length ≤ 1 then
      .error .badRequest400
    else
      .ok (dbRemoveUserFromProject ms userId)

/-! ## Job queue (src/api/app/job_client.py)

`JobQueueClient` keeps a pending sorted set plus per-job running, completed
and failed keys.  For Claim C2 the relevant state of one job is its blob
(the JSON dict) and which of the four places holds it.  A freshly enqueued
blob (lines 85-99) carries `max_retries` but *no* `retry_count` key, which
`update_job_status` reads back with `job_data.get("retry_count", 0)`
(line 202); both optional reads are embedded as `Option` with the source's
defaults. -/

inductive JobStatus where
  | pending | queued | running | completed | failed | cancelled
  deriving DecidableEq, Repr

structure JobBlob where
  retryCount : Option Nat
  maxRetries : Option Nat
  status : JobStatus
  deriving DecidableEq, Repr

/-- `job_data.get("retry_count", 0)`. -/
def JobBlob.retryCountD (b : JobBlob) : Nat := b.retryCount.getD 0

/-- `job_data.get("max_retries", 3)`. -/
def JobBlob.maxRetriesD (b : JobBlob) : Nat := b.maxRetries.getD 3

/-- Which key of the queue store holds the job's blob. -/
inductive JobLoc where
  | inPending (b : JobBlob)
  | inRunning (b : JobBlob)
  | inCompleted (b : JobBlob)
  | inFailed (b : JobBlob)
  deriving DecidableEq, Repr

/-- The FAILED branch of `update_job_status` (src/api/app/job_client.py
lines 200-227) applied to a running blob: below `max_retries` the blob is
re-queued into the pending set with `retry_count` incremented and status
reset to pending; otherwise it moves to the failed key. -/
def updateJobStatusFailed (b : JobBlob) : JobLoc :=
  if b.retryCountD < b.maxRetriesD then
    .inPending { b with retryCount := some (b.retryCountD + 1), status := .pending }
  else
    .inFailed { b with status := .failed }

/-- The blob written by `enqueue_job` for a job with `max_retries = m`:
status queued, no `retry_count` key. -/
def freshBlob (m : Nat) : JobBlob :=
  { retryCount := none, maxRetries := some m, status := .queued }

/-- The job's location after `k` failure reports when its handler fails on
every attempt: while the blob sits in the pending set the worker dequeues
it (`dequeue_job`, lines 119-154, marks it running) and the handler's
failure triggers the FAILED branch; once the blob has left the pending set
no further attempt happens. -/
def afterFailures (m : Nat) : Nat → JobLoc
  | 0 => .inPending (freshBlob m)
  | k + 1 =>
    match afterFailures m k with
    | .inPending b => updateJobStatusFailed { b with status := .running }
    | loc => loc

/-- `_get_priority_score` (src/api/app/job_client.py lines 357-370): the
base score of a serialized priority value, with 3.0 for anything
unrecognized. -/
def priorityBase (priority : String) : ℚ :=
  if priority = "urgent" then 1
  else if priority = "high" then 2
  else if priority = "normal" then 3
  else if priority = "low" then 4
  else 3

/-- The fractional term `timestamp / 1000000` added to the base score,
where `timestamp` is the enqueue time in unix seconds. -/
def timestampTerm (timestamp : ℚ) : ℚ := timestamp / 1000000

/-- `_get_priority_score`: `base_score + (timestamp / 1000000)`. -/
def priorityScore (priority : String) (timestamp : ℚ) : ℚ :=
  priorityBase priority + timestampTerm timestamp

/-- `zpopmin` over the pending sorted set: returns the member with the
lowest score (first such member on equal scores). -/
def zpopmin (pending : List (String × ℚ)) : Option (String × ℚ) :=
  pending.foldl
    (fun acc x =>
      match acc with
      | none => some x
      | some y => if x.2 < y.2 then some x else acc)
    none

/-! ## Data lake (src/api/app/disk_data_lake.py)

`DiskDataLake` keeps one content file per entry at
`<base>/<data_type>/[subpath/]<name>` and one JSON side-car per entry id
under `<base>/.metadata/<id>.json`.  The file system is embedded as two
association lists (path to content, side-cars in creation order — the glob
order of `.metadata/*.json` is modeled as that order), and `uuid.uuid4()`
as a fresh counter (what matters is that generated ids are new).  Disk I/O
failures (`OSError`) are outside the model; the validation errors and
not-found errors are the embedded failure modes. -/

inductive DataType where
  | schema | macroData | documentation | configuration | logs | other
  deriving DecidableEq, Repr

/-- The `DataType` enum's string value (directory name). -/
def DataType.value : DataType → String
  | .schema => "schema"
  | .macroData => "macro"
  | .documentation => "documentation"
  | .configuration => "configuration"
  | .logs => "logs"
  | .other => "other"

/-- JSON metadata values: the caller supplies strings, the lake injects a
string, a null (subpath None) and a number (file_size). -/
inductive MVal where
  | str (s : String)
  | num (n : Nat)
  | null
  deriving DecidableEq, Repr

/-- A Python dict as an association list with unique keys; `dictInsert`
is `d[k] = v` (replace or append). -/
abbrev Metadata : Type := List (String × MVal)

def dictInsert (d : Metadata) (k : String) (v : MVal) : Metadata :=
  d.filter (fun p => p.1 ≠ k) ++ [(k, v)]

/-- Python `str.strip()` on a char list: drop leading and trailing
whitespace (the source uses it only to reject all-blank names, and the
chunker uses it on chunk text). -/
def stripChars (l : List Char) : List Char :=
  ((l.dropWhile Char.isWhitespace).reverse.dropWhile Char.isWhitespace).reverse

/-- The `not name or not name.strip()` validation test. -/
def nameBlank (name : String) : Bool :=
  (stripChars name.toList).isEmpty

/-- A `pathlib` truthiness quirk of the source: `if subpath:` treats the
empty string like `None`. -/
def subEff (sub : Option String) : Option String :=
  match sub with
  | none => none
  | some s => if s = "" then none else some s

/-- `_get_file_path` relative to the lake root (src/api/app/disk_data_lake.py
lines 55-60 and the `relative_to` at line 132). -/
def relPath (dt : DataType) (sub : Option String) (name : String) : String :=
  match subEff sub with
  | none => dt.value ++ "/" ++ name
  | some s => dt.value ++ "/" ++ s ++ "/" ++ name

/-- `".." in subpath`. -/
def hasDotDot (s : String) : Bool :=
  go s.toList
where
  go : List Char → Bool
  | '.' :: '.' :: _ => true
  | _ :: rest => go rest
  | [] => false

/-- The subpath validation condition of `_validate_inputs` (lines 80-83):
checked only when the subpath is truthy. -/
def subpathBad (sub : Option String) : Bool :=
  match subEff sub with
  | none => false
  | some s => hasDotDot s || s.startsWith "/"

/-- Overwriting file write: the path maps to the new content. -/
def fsWrite (files : List (String × String)) (path content : String) :
    List (String × String) :=
  (path, content) :: files.filter (fun p => p.1 ≠ path)

/-- One `.metadata/<id>.json` side-car. -/
structure Sidecar where
  id : Nat
  name : String
  dataTypeValue : String
  metadata : Metadata
  filePath : String
  deriving DecidableEq, Repr

structure DataLakeEntry where
  id : Nat
  name : String
  dataTypeValue : String
  content : String
  metadata : Metadata
  filePath : String
  deriving DecidableEq, Repr

structure LakeState where
  files : List (String × String)
  sidecars : List Sidecar
  nextId : Nat
  deriving DecidableEq, Repr

def emptyLake : LakeState := { files := [], sidecars := [], nextId := 0 }

/-- Generated ids are fresh: every existing side-car id is below the
counter (the model of uuid4 never colliding). -/
def FreshIds (st : LakeState) : Prop :=
  ∀ sc ∈ st.sidecars, sc.id < st.nextId

inductive LakeError where
  | validation (msg : String)
  | notFound (msg : String)
  deriving DecidableEq, Repr

/-- The `subpath` metadata value: the original argument, `None` as JSON
null. -/
def subMVal (sub : Option String) : MVal :=
  match sub with
  | none => .null
  | some s => .str s

/-- The metadata augmentation of `store` (lines 115-122): the caller's
map updated, in source order, with `original_name`, `data_type`,
`subpath` and `file_size` (UTF-8 byte length of the content). -/
def storeMeta (callerMeta : Metadata) (name : String) (dt : DataType)
    (sub : Option String) (c : String) : Metadata :=
  dictInsert (dictInsert (dictInsert (dictInsert callerMeta
    "original_name" (.str name))
    "data_type" (.str dt.value))
    "subpath" (subMVal sub))
    "file_size" (.num c.utf8ByteSize)

/-- `DiskDataLake.store` (src/api/app/disk_data_lake.py lines 85-156):
validation (`_validate_inputs`, lines 66-83), content-file write, metadata
augmentation with the four injected keys, side-car write. -/
def dlStore (st : LakeState) (name : String) (content : Option String)
    (dt : DataType) (callerMeta : Metadata) (sub : Option String) :
    Except LakeError (DataLakeEntry × LakeState) :=
  if nameBlank name then .error (.validation "Name cannot be empty")
  else match content with
  | none => .error (.validation "Content cannot be None")
  | some c =>
    if subpathBad sub then
      .error (.validation "Invalid subpath: directory traversal not allowed")
    else
      let entryId := st.nextId
      let path := relPath dt sub name
      let entryMeta := storeMeta callerMeta name dt sub c
      let sc : Sidecar :=
        { id := entryId, name := name, dataTypeValue := dt.value,
          metadata := entryMeta, filePath := path }
      let entry : DataLakeEntry :=
        { id := entryId, name := name, dataTypeValue := dt.value,
          content := c, metadata := entryMeta, filePath := path }
      .ok (entry,
        { files := fsWrite st.files path c,
          sidecars := st.sidecars ++ [sc],
          nextId := st.nextId + 1 })

/-- `DiskDataLake.retrieve` (lines 170-194): load the side-car by id, then
the content file at its recorded path. -/
def dlRetrieve (st : LakeState) (entryId : Nat) : Except LakeError DataLakeEntry :=
  match st.sidecars.find? (fun sc => sc.id == entryId) with
  | none => .error (.notFound "Entry not found")
  | some sc =>
    match st.files.find? (fun p => p.1 == sc.filePath) with
    | none => .error (.notFound "Content file not found for entry")
    | some p =>
      .ok { id := sc.id, name := sc.name, dataTypeValue := sc.dataTypeValue,
            content := p.2, metadata := sc.metadata, filePath := sc.filePath }

/-- `DiskDataLake.retrieve_by_path` (lines 196-204): linear scan of the
side-cars for a matching recorded path, then delegate to `retrieve`. -/
def dlRetrieveByPath (st : LakeState) (path : String) : Except LakeError DataLakeEntry :=
  match st.sidecars.find? (fun sc => sc.filePath == path) with
  | none => .error (.notFound "No entry found with path")
  | some sc => dlRetrieve st sc.id

/-! ## RAG collection naming and search (src/scanner/app/rag/rag_service.py)

`_normalize_collection_name` builds
`{prefix}_{normalized_project}_{normalized_file_stem}` where normalization
is `str.lower()` followed by `re.sub(r'[^a-zA-Z0-9_]', '_', ...)`, and
replaces the file-name part by the first 8 hex characters of
`hashlib.md5(file_name).hexdigest()` when the name exceeds 100 characters.
`str.lower()` is embedded for ASCII (Python's Unicode lowering differs
only on exotic code points, none of which can make the character class
match where the embedding does not for the properties proved here); MD5 is
an oracle parameter constrained, where a theorem needs it, to return 8
lower-case hex characters.  `search` resolves its candidate collections by
filtering all collection names on the raw, unnormalized
`{prefix}_{request.project}_` prefix and returns an empty response
immediately when none match. -/

/-- ASCII lowering table for `str.lower()`; only reached for characters
between A and Z, so the default branch is dead code. -/
def lowerAZ (c : Char) : Char :=
  match c with
  | 'A' => 'a' | 'B' => 'b' | 'C' => 'c' | 'D' => 'd' | 'E' => 'e' | 'F' => 'f'
  | 'G' => 'g' | 'H' => 'h' | 'I' => 'i' | 'J' => 'j' | 'K' => 'k' | 'L' => 'l'
  | 'M' => 'm' | 'N' => 'n' | 'O' => 'o' | 'P' => 'p' | 'Q' => 'q' | 'R' => 'r'
  | 'S' => 's' | 'T' => 't' | 'U' => 'u' | 'V' => 'v' | 'W' => 'w' | 'X' => 'x'
  | 'Y' => 'y' | 'Z' => 'z'
  | _ => '_'

/-- `str.lower()` on one character (ASCII). -/
def pyLower (c : Char) : Char :=
  if 'A' ≤ c ∧ c ≤ 'Z' then lowerAZ c else c

/-- The regex character class `[a-zA-Z0-9_]`. -/
def isWordChar (c : Char) : Bool :=
  ('a' ≤ c && c ≤ 'z') || ('A' ≤ c && c ≤ 'Z') || ('0' ≤ c && c ≤ '9') || c == '_'

/-- The class `[a-z0-9_]` the claim asserts of the output. -/
def isCollUnit (c : Char) : Bool :=
  ('a' ≤ c && c ≤ 'z') || ('0' ≤ c && c ≤ '9') || c == '_'

/-- Lower-case hexadecimal digits, as produced by `hexdigest()`. -/
def isHexLower (c : Char) : Bool :=
  ('0' ≤ c && c ≤ '9') || ('a' ≤ c && c ≤ 'f')

/-- `re.sub(r'[^a-zA-Z0-9_]', '_', s.lower())`. -/
def normalizeStr (s : String) : String :=
  String.mk (s.data.map (fun c =>
    let c2 := pyLower c
    if isWordChar c2 then c2 else '_'))

/-- `pathlib.Path(file_name).stem`: the last path component without its
final suffix; a suffix exists only when the last dot is neither the first
nor the last character of the component (CPython's rule). -/
def pathStemChars (l : List Char) : List Char :=
  let base := (l.reverse.takeWhile (fun c => c ≠ '/')).reverse
  let revd := base.reverse
  match revd.dropWhile (fun c => c ≠ '.') with
  | [] => base
  | _ :: rest =>
    if revd.takeWhile (fun c => c ≠ '.') = [] then base
    else if rest = [] then base
    else rest.reverse

/-- The default `VECTORDB_COLLECTION_PREFIX` setting. -/
def defaultCollPref : String := "archaeologist"

/-- `RAGService._normalize_collection_name` (src/scanner/app/rag/rag_service.py
lines 95-120), with the truncated MD5 hex digest as an oracle. -/
def normalizeCollectionName (md5Hex8 : String → String)
    (pref project fileName : String) : String :=
  let normalizedBase := normalizeStr (String.mk (pathStemChars fileName.data))
  let normalizedProject := normalizeStr project
  let collectionName := pref ++ "_" ++ normalizedProject ++ "_" ++ normalizedBase
  if 100 < collectionName.length then
    pref ++ "_" ++ normalizedProject ++ "_" ++ md5Hex8 fileName
  else collectionName

/-- A fixed stand-in for the truncated MD5 digest, used at concrete
inputs; like the real digest it is 8 lower-case hex characters. -/
def md5SampleDigest : String → String := fun _ => "0123abcd"

/-- A 120-character project name. -/
def longProject : String := String.mk (List.replicate 120 'a')

/-- `create_collection` skips creation when the collection exists;
ingesting adds the normalized name to the collection set. -/
def addCollection (cols : List String) (c : String) : List String :=
  if c ∈ cols then cols else cols ++ [c]

/-- The vector database's collection list after a sequence of
`ingest_document` calls (project, file_name), starting from no
collections. -/
def collectionsAfterIngests (md5Hex8 : String → String) (pref : String)
    (reqs : List (String × String)) : List String :=
  reqs.foldl (fun cols pr =>
    addCollection cols (normalizeCollectionName md5Hex8 pref pr.1 pr.2)) []

/-- Python `str.startswith`. -/
def pyStartswith (pre s : String) : Bool :=
  pre.data.isPrefixOf s.data

/-- The candidate-collection resolution of `search` (lines 290-296):
collections whose name starts with the raw `{prefix}_{project}_`. -/
def searchProjectCollections (pref : String) (cols : List String)
    (project : String) : List String :=
  cols.filter (fun col => pyStartswith (pref ++ "_" ++ project ++ "_") col)

/-- The early-return branch of `search` (lines 301-308): when no candidate
collection matches, the empty result list is returned immediately
(`some []`); otherwise the embedding and similarity search run, which the
model leaves unevaluated (`none`). -/
def ragSearchProject (pref : String) (cols : List String)
    (project : String) : Option (List String) :=
  let projectCollections := searchProjectCollections pref cols project
  if projectCollections.isEmpty then some [] else none

/-! ## Text chunker (src/api/app/scanner/text_processing/chunker.py)

`TextChunker.create_chunks_with_overlap` first splits the text at
regex-detected boundaries (`split_text_aware`), then greedily accumulates
segments into chunks: a segment joins the current chunk while the token
count stays at or below `chunk_size` (default 512); otherwise the current
chunk is emitted *only if* it has at least `min_chunk_size` (default 100)
tokens, and the next accumulator starts with the last
`chunk_overlap * 4 = 200` characters of the previous accumulator followed
by `"\n\n"` and the new segment.  The embedding models the
tokenizer-unavailable path (`count_tokens` is `len(text) // 4`, overlap is
character-based, chunker.py lines 119-123 and 229-233); text is a char
list.  `split_text_aware` is regex-driven; it is embedded for 'general'
documents whose only matching pattern occurrences are the paragraph break
`\n\n` (e.g. documents of letters and paragraph breaks): the split points
are the match starts and each slice is stripped, with empty segments
dropped, which `splitSegsGeneral` reproduces.  The chunks' character
offsets (`start_index`/`end_index`) play no role in the claims and are not
carried. -/

/-- `count_tokens` without tiktoken: `len(text) // 4`. -/
def countTokens (l : List Char) : Nat := l.length / 4

/-- One emitted chunk: `raw` is the accumulator (`current_chunk`) at
emission time; the source stores `current_chunk.strip()` as the text. -/
structure TextChunk where
  raw : List Char
  chunkId : Nat
  deriving DecidableEq, Repr

/-- `text=current_chunk.strip()` (chunker.py lines 206, 242). -/
def TextChunk.text (c : TextChunk) : List Char := stripChars c.raw

/-- `token_count=self.count_tokens(current_chunk)`. -/
def TextChunk.tokenCount (c : TextChunk) : Nat := countTokens c.raw

/-- The loop state of `create_chunks_with_overlap`: emitted chunks, the
accumulator `current_chunk`, and the running chunk id. -/
structure ChunkAcc where
  chunks : List TextChunk
  current : List Char
  chunkId : Nat
  deriving DecidableEq, Repr

/-- `test_chunk = current_chunk + ("\n\n" if current_chunk else "") + segment`. -/
def sepJoin (current segment : List Char) : List Char :=
  current ++ (if current.isEmpty then [] else ['\n', '\n']) ++ segment

/-- `current_chunk[-n:] if len(current_chunk) > n else current_chunk` —
the last `n` characters (or everything when shorter). -/
def takeLastN (n : Nat) (l : List Char) : List Char := l.drop (l.length - n)

/-- One iteration of the segment loop (chunker.py lines 194-237): join or,
on overflow, emit when the accumulator reaches `min_chunk_size` and start
the next accumulator from the `chunk_overlap * 4`-character overlap.  The
source's nested conditions are flattened: the emission guard requires a
non-empty accumulator, so the empty case only installs the segment. -/
def chunkStep (chunkSize chunkOverlap minChunkSize : Nat)
    (acc : ChunkAcc) (segment : List Char) : ChunkAcc :=
  if countTokens (sepJoin acc.current segment) ≤ chunkSize ∧ acc.current ≠ [] then
    { acc with current := sepJoin acc.current segment }
  else if acc.current = [] then
    { acc with current := segment }
  else if minChunkSize ≤ countTokens acc.current then
    { chunks := acc.chunks ++ [{ raw := acc.current, chunkId := acc.chunkId }],
      current := takeLastN (chunkOverlap * 4) acc.current ++ ['\n', '\n'] ++ segment,
      chunkId := acc.chunkId + 1 }
  else
    { acc with current := takeLastN (chunkOverlap * 4) acc.current ++ ['\n', '\n'] ++ segment }

/-- The trailing emission (chunker.py lines 240-252). -/
def chunkFinalize (minChunkSize : Nat) (acc : ChunkAcc) : List TextChunk :=
  if acc.current ≠ [] ∧ minChunkSize ≤ countTokens acc.current then
    acc.chunks ++ [{ raw := acc.current, chunkId := acc.chunkId }]
  else acc.chunks

/-- Emit a stripped slice, dropping it when empty (`if segment:` at
chunker.py line 163). -/
def pushSeg (cur : List Char) (rest : List (List Char)) : List (List Char) :=
  if (stripChars cur.reverse).isEmpty then rest else stripChars cur.reverse :: rest

/-- `split_text_aware` for a 'general' document whose only pattern matches
are the non-overlapping `\n\n` occurrences: split before each match,
strip each slice, drop empties. -/
def splitGo : List Char → List Char → List (List Char)
  | '\n' :: '\n' :: rest, cur => pushSeg cur (splitGo rest [])
  | c :: rest, cur => splitGo rest (c :: cur)
  | [], cur => pushSeg cur []

def splitSegsGeneral (l : List Char) : List (List Char) := splitGo l []

/-- `create_chunks_with_overlap` (chunker.py lines 168-257) for a general
document, in the character-approximation mode. -/
def createChunksWithOverlap (chunkSize chunkOverlap minChunkSize : Nat)
    (text : List Char) : List TextChunk :=
  if (stripChars text).isEmpty then []
  else
    chunkFinalize minChunkSize
      ((splitSegsGeneral text).foldl
        (chunkStep chunkSize chunkOverlap minChunkSize)
        { chunks := [], current := [], chunkId := 0 })

/-- The chunker with the constructor defaults `chunk_size=512`,
`chunk_overlap=50`, `min_chunk_size=100`. -/
def chunkDocumentGeneral (text : List Char) : List TextChunk :=
  createChunksWithOverlap 512 50 100 text

/-- Whether a run of the segment loop never hits an overflow whose
accumulator is below `min_chunk_size` (such an accumulator is silently
discarded — the failure mode of the overlap claim). -/
def noDiscards (chunkSize chunkOverlap minChunkSize : Nat) :
    ChunkAcc → List (List Char) → Bool
  | _, [] => true
  | acc, seg :: rest =>
    (decide (countTokens (sepJoin acc.current seg) ≤ chunkSize ∧ acc.current ≠ []) ||
     acc.current.isEmpty ||
     decide (minChunkSize ≤ countTokens acc.current)) &&
    noDiscards chunkSize chunkOverlap minChunkSize
      (chunkStep chunkSize chunkOverlap minChunkSize acc seg) rest

/-- The first character exists and is not whitespace. -/
def headNonWS (l : List Char) : Bool :=
  match l with
  | [] => false
  | c :: _ => !c.isWhitespace

/-- The last character exists and is not whitespace. -/
def endsNonWS (l : List Char) : Bool := headNonWS l.reverse

/-- The counterexample document: three letter-paragraphs of 2040, 100 and
1800 characters. -/
def docC5 : List Char :=
  List.replicate 2040 'a' ++ ['\n', '\n'] ++ List.replicate 100 'b' ++
    ['\n', '\n'] ++ List.replicate 1800 'c'

/-- A two-paragraph document on which the overlap property does hold. -/
def docC5ok : List Char :=
  List.replicate 2040 'a' ++ ['\n', '\n'] ++ List.replicate 1800 'c'

/-- The raw-accumulator overlap link between consecutively emitted chunks:
the 200-character overlap of the earlier accumulator heads the later one. -/
def AdjOK (c c2 : TextChunk) : Prop :=
  takeLastN 200 c.raw <+: c2.raw

/-- The loop invariant of the segment fold under a discard-free run:
emitted chunks are pairwise overlap-linked, every emitted accumulator ends
in a non-whitespace character, and the live accumulator (when the run has
started) ends non-whitespace and extends the last emitted chunk's
overlap. -/
def InvP (acc : ChunkAcc) : Prop :=
  List.Chain' AdjOK acc.chunks ∧
  (∀ c ∈ acc.chunks, endsNonWS c.raw = true) ∧
  ((acc.current = [] ∧ acc.chunks = []) ∨
    (acc.current ≠ [] ∧ endsNonWS acc.current = true ∧
      ∀ c, acc.chunks.getLast? = some c →
        takeLastN 200 c.raw <+: acc.current))

end Archaeologist

namespace Archaeologist

/-! ## Theorems: authentication -/

/-- Claim C6: POST /auth/login responds 401 if and only if the fetched user
row is absent or inactive, or the submitted username is not the literal
string "anonymous" and the password does not verify against the stored
hash; for an active "anonymous" row, login succeeds for every password. -/
theorem login_unauthorized_iff
    (verifyPassword : String → String → Bool) (db : List UserRow)
    (username password : String) :
    (login verifyPassword db username password = .error .http401 ↔
      (db.find? (fun u => u.username == username) = none ∨
        ∃ u, db.find? (fun u => u.username == username) = some u ∧
          (u.isActive = false ∨
            (username ≠ "anonymous" ∧ verifyPassword password u.hashedPassword = false)))) ∧
    (∀ u, db.find? (fun v => v.username == username) = some u →
      u.isActive = true → username = "anonymous" →
      login verifyPassword db username password = .ok u) := by
  constructor
  · unfold login
    cases hf : db.find? (fun u => u.username == username) with
    | none => simp
    | some u =>
      constructor
      · intro h
        right
        refine ⟨u, rfl, ?_⟩
        by_cases ha : u.isActive
        · simp [ha] at h
          rcases h with ⟨hne, hv⟩
          exact Or.inr ⟨hne, hv⟩
        · exact Or.inl (by simpa using ha)
      · rintro (h | ⟨v, hv, hcase⟩)
        · cases h
        · rw [hv] at *
          cases hv
          rcases hcase with ha | ⟨hne, hverify⟩
          · simp [ha]
          · by_cases ha : u.isActive <;> simp [ha, hne, hverify]
  · intro u hf ha hanon
    unfold login
    rw [hf]
    simp [ha, hanon]

/-- Claim C6 witness: a one-row database holding the active anonymous user;
login with an arbitrary password succeeds, and with the row removed it is a
401. -/
theorem login_unauthorized_iff_witness :
    login (fun _ _ => false)
      [{ username := "anonymous", hashedPassword := "x", isActive := true }]
      "anonymous" "whatever" =
      .ok { username := "anonymous", hashedPassword := "x", isActive := true } :=
  (login_unauthorized_iff (fun _ _ => false)
      [{ username := "anonymous", hashedPassword := "x", isActive := true }]
      "anonymous" "whatever").2
    { username := "anonymous", hashedPassword := "x", isActive := true }
    (by decide) rfl rfl

/-! ## Theorems: configuration loader -/

/-- Claim C8 counterexample: with only `NODE_ENV` and `COMPOSE_PROJECT_NAME`
set — the vector-database host and port and the LLM API URL all absent —
the API settings object is constructed without any error, contradicting the
claim that construction raises whenever any of those variables is absent. -/
theorem settings_missing_optional_ok :
    (mkSettingsApi envOnlyRequired).isOk = true ∧
    envOnlyRequired "VECTORDB_HOST" = none ∧
    envOnlyRequired "VECTORDB_PORT" = none ∧
    envOnlyRequired "LLM_API_URL" = none := by
  refine ⟨?_, rfl, rfl, rfl⟩
  rfl

/-- Claim C8 amended: the settings constructors fail fast only on the
genuinely required variables — `NODE_ENV` and `COMPOSE_PROJECT_NAME` for
the API variant, plus `SCANNER_PORT` for the scanner variant — and, when
those are present and every `int(...)`-parsed variable that is present is
numeric, construction succeeds even with the vector-database host/port and
the LLM API URL absent (they fall back to defaults or stay unset); neither
file reads an external code-search-service URL at all. -/
theorem settings_required_iff
    (env : Env) :
    (env "NODE_ENV" = none → mkSettingsApi env = .error (.missing "NODE_ENV")) ∧
    (env "NODE_ENV" ≠ none → env "COMPOSE_PROJECT_NAME" = none →
      mkSettingsApi env = .error (.missing "COMPOSE_PROJECT_NAME")) ∧
    (env "SCANNER_PORT" = none → env "NODE_ENV" ≠ none →
      env "COMPOSE_PROJECT_NAME" ≠ none →
      mkSettingsScanner env = .error (.missing "SCANNER_PORT")) ∧
    (WellFormedInts apiIntKeys env → env "NODE_ENV" ≠ none →
      env "COMPOSE_PROJECT_NAME" ≠ none → (mkSettingsApi env).isOk = true) ∧
    (WellFormedInts scannerIntKeys env → env "NODE_ENV" ≠ none →
      env "COMPOSE_PROJECT_NAME" ≠ none → env "SCANNER_PORT" ≠ none →
      (mkSettingsScanner env).isOk = true) := by
  have hint : ∀ (keys : List String) (k : String) (d : Nat),
      WellFormedInts keys env → k ∈ keys → ∃ n, envIntD env k d = .ok n := by
    intro keys k d hwf hk
    cases he : env k with
    | none => exact ⟨d, by simp only [envIntD, he]⟩
    | some s =>
      have := hwf k hk s he
      cases hn : s.toNat? with
      | none => rw [hn] at this; cases this
      | some n => exact ⟨n, by simp only [envIntD, he, hn]⟩
  refine ⟨?_, ?_, ?_, ?_, ?_⟩
  · intro h
    unfold mkSettingsApi requireEnv
    rw [h]
    rfl
  · intro h1 h2
    unfold mkSettingsApi requireEnv
    cases he : env "NODE_ENV" with
    | none => exact absurd he h1
    | some v => rw [h2]; rfl
  · intro hs h1 h2
    unfold mkSettingsScanner requireEnv
    cases he1 : env "NODE_ENV" with
    | none => exact absurd he1 h1
    | some v1 =>
      cases he2 : env "COMPOSE_PROJECT_NAME" with
      | none => exact absurd he2 h2
      | some v2 => rw [hs]; rfl
  · intro hwf h1 h2
    cases he1 : env "NODE_ENV" with
    | none => exact absurd he1 h1
    | some v1 =>
    cases he2 : env "COMPOSE_PROJECT_NAME" with
    | none => exact absurd he2 h2
    | some v2 =>
    obtain ⟨n1, e1⟩ := hint apiIntKeys "WEB_PORT" 8000 hwf (by simp [apiIntKeys])
    obtain ⟨n2, e2⟩ := hint apiIntKeys "VECTORDB_PORT" 6333 hwf (by simp [apiIntKeys])
    obtain ⟨n3, e3⟩ := hint apiIntKeys "EMBEDDING_DIMENSION" 384 hwf (by simp [apiIntKeys])
    obtain ⟨n4, e4⟩ := hint apiIntKeys "MAX_CONTEXT_LENGTH" 512 hwf (by simp [apiIntKeys])
    obtain ⟨n5, e5⟩ := hint apiIntKeys "CHUNK_SIZE" 512 hwf (by simp [apiIntKeys])
    obtain ⟨n6, e6⟩ := hint apiIntKeys "CHUNK_OVERLAP" 50 hwf (by simp [apiIntKeys])
    obtain ⟨n7, e7⟩ := hint apiIntKeys "MIN_CHUNK_SIZE" 100 hwf (by simp [apiIntKeys])
    obtain ⟨n8, e8⟩ := hint apiIntKeys "MAX_EMBEDDING_BATCH_SIZE" 32 hwf (by simp [apiIntKeys])
    obtain ⟨n9, e9⟩ := hint apiIntKeys "JWT_ACCESS_TOKEN_EXPIRE_MINUTES" 15 hwf (by simp [apiIntKeys])
    obtain ⟨n10, e10⟩ := hint apiIntKeys "JWT_REFRESH_TOKEN_EXPIRE_DAYS" 7 hwf (by simp [apiIntKeys])
    obtain ⟨n11, e11⟩ := hint apiIntKeys "REDIS_PORT" 6379 hwf (by simp [apiIntKeys])
    obtain ⟨n12, e12⟩ := hint apiIntKeys "REDIS_DB" 0 hwf (by simp [apiIntKeys])
    obtain ⟨n13, e13⟩ := hint apiIntKeys "JOB_RESULT_TTL" 86400 hwf (by simp [apiIntKeys])
    obtain ⟨n14, e14⟩ := hint apiIntKeys "JOB_TIMEOUT" 3600 hwf (by simp [apiIntKeys])
    obtain ⟨n15, e15⟩ := hint apiIntKeys "JOB_POLL_INTERVAL" 5 hwf (by simp [apiIntKeys])
    unfold mkSettingsApi requireEnv
    rw [he1, he2, e1, e2, e3, e4, e5, e6, e7, e8, e9, e10, e11, e12, e13, e14, e15]
    rfl
  · intro hwf h1 h2 h3
    cases he1 : env "NODE_ENV" with
    | none => exact absurd he1 h1
    | some v1 =>
    cases he2 : env "COMPOSE_PROJECT_NAME" with
    | none => exact absurd he2 h2
    | some v2 =>
    cases he3 : env "SCANNER_PORT" with
    | none => exact absurd he3 h3
    | some v3 =>
    have hv3 : (v3.toNat?).isSome := hwf "SCANNER_PORT" (by simp [scannerIntKeys]) v3 he3
    obtain ⟨m1, f1⟩ := hint scannerIntKeys "EMBEDDING_DIMENSION" 384 hwf (by simp [scannerIntKeys])
    obtain ⟨m2, f2⟩ := hint scannerIntKeys "MAX_CONTEXT_LENGTH" 512 hwf (by simp [scannerIntKeys])
    obtain ⟨m3, f3⟩ := hint scannerIntKeys "CHUNK_SIZE" 512 hwf (by simp [scannerIntKeys])
    obtain ⟨m4, f4⟩ := hint scannerIntKeys "CHUNK_OVERLAP" 50 hwf (by simp [scannerIntKeys])
    obtain ⟨m5, f5⟩ := hint scannerIntKeys "MIN_CHUNK_SIZE" 100 hwf (by simp [scannerIntKeys])
    obtain ⟨m6, f6⟩ := hint scannerIntKeys "MAX_EMBEDDING_BATCH_SIZE" 32 hwf (by simp [scannerIntKeys])
    obtain ⟨m7, f7⟩ := hint scannerIntKeys "VECTORDB_PORT" 6333 hwf (by simp [scannerIntKeys])
    cases hn3 : v3.toNat? with
    | none => rw [hn3] at hv3; cases hv3
    | some p =>
      simp only [mkSettingsScanner, requireEnv, he1, he2, he3, hn3,
        f1, f2, f3, f4, f5, f6, f7, bind, Except.bind, Except.isOk, Except.toBool]

/-! ## Theorems: project membership (C1) -/

/-- Claim C1 counterexample: in a project whose members are user 1 (the
only owner, active) and user 2 (an admin, active), the DELETE request by
caller 2 removing user 1 is *not* rejected — it succeeds and leaves the
project with no active owner, because the route's last-owner guard tests
the caller's role, not the target's. -/
theorem remove_sole_owner_by_admin_succeeds :
    removeUserFromProject
      [{ userId := 1, role := .owner, isActive := true },
       { userId := 2, role := .admin, isActive := true }] 2 1 =
      .ok [{ userId := 1, role := .owner, isActive := false },
           { userId := 2, role := .admin, isActive := true }] ∧
    activeOwners
      [{ userId := 1, role := .owner, isActive := false },
       { userId := 2, role := .admin, isActive := true }] = [] := by
  constructor
  · rfl
  · rfl

/-- Claim C1 amended: the last-owner guard fires only when the *caller's*
role is owner: a caller who is an active owner of a project with at most
one active owner has every removal rejected with 400, including removing
themselves; a caller whose role is admin is not stopped by the guard and
can remove the sole owner (see the counterexample). -/
theorem remove_last_owner_guard
    (ms : List Membership) (currentUserId userId : Nat)
    (hrole : getUserProjectRole ms currentUserId = some ProjectRole.owner)
    (howners : (activeOwners ms).length ≤ 1) :
    removeUserFromProject ms currentUserId userId = .error .badRequest400 := by
  unfold removeUserFromProject
  rw [hrole]
  simp [howners]

/-- Claim C1 amended witness: the sole owner of a one-member project cannot
remove themselves. -/
theorem remove_last_owner_guard_witness :
    removeUserFromProject [{ userId := 1, role := .owner, isActive := true }] 1 1 =
      .error .badRequest400 :=
  remove_last_owner_guard [{ userId := 1, role := .owner, isActive := true }] 1 1
    (by decide) (by decide)

/-! ## Theorems: job retry policy (C2) -/

/-- Claim C2: a job whose handler fails on every attempt is re-queued into
the pending set by each of its first `max_retries` failure reports, with
`retry_count` incremented by one each time and status reset to pending;
the next failure after `retry_count` reaches `max_retries` moves the blob
to the failed key with `retry_count == max_retries` (read with the
source's `get(..., 0)` default), and the job never re-enters the pending
set afterwards. -/
theorem job_retry_then_terminal (m k : Nat) :
    (k ≤ m →
      afterFailures m k =
        .inPending { retryCount := if k = 0 then none else some k,
                     maxRetries := some m,
                     status := if k = 0 then .queued else .pending }) ∧
    (m < k →
      afterFailures m k = .inFailed
          { retryCount := if m = 0 then none else some m,
            maxRetries := some m, status := .failed } ∧
        JobBlob.retryCountD
          { retryCount := if m = 0 then none else some m,
            maxRetries := some m, status := .failed } = m) := by
  induction k with
  | zero =>
    refine ⟨fun _ => rfl, fun h => absurd h (Nat.not_lt_zero m)⟩
  | succ k ih =>
    constructor
    · intro hk
      have hkm : k < m := hk
      have hle : k ≤ m := Nat.le_of_lt hkm
      have hpend := ih.1 hle
      simp only [afterFailures, hpend]
      unfold updateJobStatusFailed
      by_cases hk0 : k = 0 <;>
        simp [JobBlob.retryCountD, JobBlob.maxRetriesD, hk0, hkm] <;> omega
    · intro hk
      rcases Nat.lt_or_ge m k with hmk | hmk
      · have hfail := ih.2 hmk
        simp only [afterFailures, hfail.1]
        exact ⟨trivial, hfail.2⟩
      · have hmeq : m = k := by omega
        subst hmeq
        have hpend := ih.1 (Nat.le_refl m)
        simp only [afterFailures, hpend]
        unfold updateJobStatusFailed
        by_cases hm0 : m = 0 <;>
          simp [JobBlob.retryCountD, JobBlob.maxRetriesD, hm0]

/-- Claim C2 witness: with the default `max_retries = 3`, the third failure
still re-queues the job with `retry_count = 3`, and the fourth failure
lands it in the failed key with `retry_count = 3`. -/
theorem job_retry_then_terminal_witness :
    afterFailures 3 3 =
      .inPending { retryCount := some 3, maxRetries := some 3, status := .pending } ∧
    afterFailures 3 4 =
      .inFailed { retryCount := some 3, maxRetries := some 3, status := .failed } := by
  constructor
  · have h := (job_retry_then_terminal 3 3).1 (by decide)
    simpa using h
  · have h := ((job_retry_then_terminal 3 4).2 (by decide)).1
    simpa using h

/-! ## Theorems: data lake (C4, C10) -/

/-- A pair already in the dict survives an insert under a different key. -/
theorem mem_dictInsert_of_mem {d : Metadata} {kv : String × MVal} (k : String) (v : MVal)
    (h : kv ∈ d) (hne : kv.1 ≠ k) : kv ∈ dictInsert d k v := by
  unfold dictInsert
  refine List.mem_append_left _ ?_
  exact List.mem_filter.mpr ⟨h, by simpa using hne⟩

/-- The inserted pair is in the dict. -/
theorem mem_dictInsert_self (d : Metadata) (k : String) (v : MVal) :
    (k, v) ∈ dictInsert d k v := by
  unfold dictInsert
  exact List.mem_append_right _ (by simp)

/-- Claim C4 counterexample: storing with caller metadata that itself uses
the key `original_name` does not preserve that caller pair — the injected
value overwrites it, so the retrieved metadata is not a superset of the
caller-supplied map. -/
theorem dataLake_metadata_not_superset :
    dlStore emptyLake "a" (some "hello") DataType.schema
        [("original_name", MVal.str "zzz")] none =
      .ok ({ id := 0, name := "a", dataTypeValue := "schema", content := "hello",
             metadata := [("original_name", MVal.str "a"), ("data_type", MVal.str "schema"),
                          ("subpath", MVal.null), ("file_size", MVal.num 5)],
             filePath := "schema/a" },
           { files := [("schema/a", "hello")],
             sidecars := [{ id := 0, name := "a", dataTypeValue := "schema",
                            metadata := [("original_name", MVal.str "a"),
                                         ("data_type", MVal.str "schema"),
                                         ("subpath", MVal.null), ("file_size", MVal.num 5)],
                            filePath := "schema/a" }],
             nextId := 1 }) ∧
    ("original_name", MVal.str "zzz") ∉
      [("original_name", MVal.str "a"), ("data_type", MVal.str "schema"),
       ("subpath", MVal.null), ("file_size", MVal.num 5)] := by
  exact ⟨rfl, by decide⟩

/-- Claim C4 amended: for valid inputs whose caller metadata does not use
any of the four injected keys (which the store overwrites), and a lake
whose existing entries do not already record the same relative path,
retrieving the stored id returns the stored content and a metadata map
containing every caller pair plus the four injected keys, and
`retrieve_by_path` on the stored path returns the same id. -/
theorem dataLake_round_trip
    (st : LakeState) (name content : String) (dt : DataType)
    (callerMeta : Metadata) (sub : Option String)
    (hfresh : FreshIds st)
    (hname : nameBlank name = false)
    (hsub : subpathBad sub = false)
    (hkeys : ∀ kv ∈ callerMeta,
      kv.1 ∉ (["original_name", "data_type", "subpath", "file_size"] : List String))
    (hpath : ∀ sc ∈ st.sidecars, sc.filePath ≠ relPath dt sub name) :
    ∃ e st2, dlStore st name (some content) dt callerMeta sub = .ok (e, st2) ∧
      ∃ e2, dlRetrieve st2 e.id = .ok e2 ∧
        e2.content = content ∧
        (∀ kv ∈ callerMeta, kv ∈ e2.metadata) ∧
        ("original_name", MVal.str name) ∈ e2.metadata ∧
        ("data_type", MVal.str dt.value) ∈ e2.metadata ∧
        ("subpath", subMVal sub) ∈ e2.metadata ∧
        ("file_size", MVal.num content.utf8ByteSize) ∈ e2.metadata ∧
        ∃ e3, dlRetrieveByPath st2 e.filePath = .ok e3 ∧ e3.id = e.id := by
  classical
  set path := relPath dt sub name with hpathdef
  set em := storeMeta callerMeta name dt sub content with hem
  have hstore : dlStore st name (some content) dt callerMeta sub =
      .ok ({ id := st.nextId, name := name, dataTypeValue := dt.value,
             content := content, metadata := em, filePath := path },
           { files := fsWrite st.files path content,
             sidecars := st.sidecars ++ [({ id := st.nextId, name := name,
                                             dataTypeValue := dt.value,
                                             metadata := em, filePath := path } : Sidecar)],
             nextId := st.nextId + 1 }) := by
    unfold dlStore
    simp only [hname, hsub, Bool.false_eq_true, if_false]
  have hfindid : (st.sidecars ++ [({ id := st.nextId, name := name,
                                       dataTypeValue := dt.value, metadata := em,
                                       filePath := path } : Sidecar)]).find?
        (fun sc => sc.id == st.nextId) =
      some { id := st.nextId, name := name, dataTypeValue := dt.value,
             metadata := em, filePath := path } := by
    rw [List.find?_append]
    have h1 : st.sidecars.find? (fun sc => sc.id == st.nextId) = none :=
      List.find?_eq_none.mpr (fun sc hsc => by
        simpa using Nat.ne_of_lt (hfresh sc hsc))
    rw [h1]
    simp
  have hfindpath : (st.sidecars ++ [({ id := st.nextId, name := name,
                                         dataTypeValue := dt.value, metadata := em,
                                         filePath := path } : Sidecar)]).find?
        (fun sc => sc.filePath == path) =
      some { id := st.nextId, name := name, dataTypeValue := dt.value,
             metadata := em, filePath := path } := by
    rw [List.find?_append]
    have h1 : st.sidecars.find? (fun sc => sc.filePath == path) = none :=
      List.find?_eq_none.mpr (fun sc hsc => by
        simpa using hpath sc hsc)
    rw [h1]
    simp
  have hretr : dlRetrieve
      { files := fsWrite st.files path content,
        sidecars := st.sidecars ++ [({ id := st.nextId, name := name,
                                        dataTypeValue := dt.value,
                                        metadata := em, filePath := path } : Sidecar)],
        nextId := st.nextId + 1 } st.nextId =
      .ok { id := st.nextId, name := name, dataTypeValue := dt.value,
            content := content, metadata := em, filePath := path } := by
    unfold dlRetrieve
    rw [hfindid]
    simp [fsWrite]
  have hmeta : (∀ kv ∈ callerMeta, kv ∈ em) ∧
      ("original_name", MVal.str name) ∈ em ∧
      ("data_type", MVal.str dt.value) ∈ em ∧
      ("subpath", subMVal sub) ∈ em ∧
      ("file_size", MVal.num content.utf8ByteSize) ∈ em := by
    rw [hem]
    unfold storeMeta
    refine ⟨?_, ?_, ?_, ?_, ?_⟩
    · intro kv hkv
      have h := hkeys kv hkv
      simp only [List.mem_cons, List.not_mem_nil] at h
      push_neg at h
      obtain ⟨h1, h2, h3, h4, _⟩ := h
      exact mem_dictInsert_of_mem _ _
        (mem_dictInsert_of_mem _ _
          (mem_dictInsert_of_mem _ _
            (mem_dictInsert_of_mem _ _ hkv h1) h2) h3) h4
    · exact mem_dictInsert_of_mem _ _
        (mem_dictInsert_of_mem _ _
          (mem_dictInsert_of_mem _ _ (mem_dictInsert_self _ _ _)
            (by simp)) (by simp)) (by simp)
    · exact mem_dictInsert_of_mem _ _
        (mem_dictInsert_of_mem _ _ (mem_dictInsert_self _ _ _) (by simp)) (by simp)
    · exact mem_dictInsert_of_mem _ _ (mem_dictInsert_self _ _ _) (by simp)
    · exact mem_dictInsert_self _ _ _
  refine ⟨_, _, hstore, _, hretr, rfl, hmeta.1, hmeta.2.1, hmeta.2.2.1,
    hmeta.2.2.2.1, hmeta.2.2.2.2, ?_⟩
  refine ⟨_, ?_, rfl⟩
  unfold dlRetrieveByPath
  rw [hfindpath]
  exact hretr

/-- Claim C4 amended witness: a concrete round trip through an empty lake
with one caller metadata key. -/
theorem dataLake_round_trip_witness :
    ∃ e st2, dlStore emptyLake "a" (some "hello") DataType.schema
        [("comment", MVal.str "hi")] none = .ok (e, st2) ∧
      ∃ e2, dlRetrieve st2 e.id = .ok e2 ∧
        e2.content = "hello" ∧
        (∀ kv ∈ ([("comment", MVal.str "hi")] : Metadata), kv ∈ e2.metadata) ∧
        ("original_name", MVal.str "a") ∈ e2.metadata ∧
        ("data_type", MVal.str DataType.schema.value) ∈ e2.metadata ∧
        ("subpath", MVal.null) ∈ e2.metadata ∧
        ("file_size", MVal.num ("hello" : String).utf8ByteSize) ∈ e2.metadata ∧
        ∃ e3, dlRetrieveByPath st2 e.filePath = .ok e3 ∧ e3.id = e.id :=
  dataLake_round_trip emptyLake "a" "hello" DataType.schema
    [("comment", MVal.str "hi")] none
    (by intro sc h; cases h) (by decide) (by decide)
    (by decide)
    (by intro sc h; cases h)

/-- Claim C10: two valid stores with the same name, data type and subpath
produce distinct ids but the same recorded relative path; the second store
rewrites the shared content file, so retrieving the *first* id afterwards
yields the *second* content. -/
theorem dataLake_same_path_second_store_wins
    (st : LakeState) (name c1 c2 : String) (dt : DataType)
    (m1 m2 : Metadata) (sub : Option String)
    (hfresh : FreshIds st)
    (hname : nameBlank name = false)
    (hsub : subpathBad sub = false) :
    ∃ e1 st1 e2 st2,
      dlStore st name (some c1) dt m1 sub = .ok (e1, st1) ∧
      dlStore st1 name (some c2) dt m2 sub = .ok (e2, st2) ∧
      e1.id ≠ e2.id ∧
      e1.filePath = e2.filePath ∧
      ∃ e3, dlRetrieve st2 e1.id = .ok e3 ∧ e3.content = c2 ∧ e3.id = e1.id ∧
        (c1 ≠ c2 → e3.content ≠ c1) := by
  classical
  set path := relPath dt sub name with hpathdef
  have mkStore : ∀ (s : LakeState) (c : String) (m : Metadata),
      dlStore s name (some c) dt m sub =
        .ok ({ id := s.nextId, name := name, dataTypeValue := dt.value,
               content := c, metadata := storeMeta m name dt sub c, filePath := path },
             { files := fsWrite s.files path c,
               sidecars := s.sidecars ++ [({ id := s.nextId, name := name,
                                              dataTypeValue := dt.value,
                                              metadata := storeMeta m name dt sub c,
                                              filePath := path } : Sidecar)],
               nextId := s.nextId + 1 }) := by
    intro s c m
    unfold dlStore storeMeta
    simp only [hname, hsub, Bool.false_eq_true, if_false]
  refine ⟨_, _, _, _, mkStore st c1 m1, mkStore _ c2 m2, by simp, rfl, ?_⟩
  refine ⟨{ id := st.nextId, name := name, dataTypeValue := dt.value,
            content := c2, metadata := storeMeta m1 name dt sub c1, filePath := path },
          ?_, rfl, rfl, fun h => Ne.symm h⟩
  unfold dlRetrieve
  have hfind : ((st.sidecars ++ [({ id := st.nextId, name := name,
                                      dataTypeValue := dt.value,
                                      metadata := storeMeta m1 name dt sub c1,
                                      filePath := path } : Sidecar)]) ++
        [({ id := st.nextId + 1, name := name, dataTypeValue := dt.value,
            metadata := storeMeta m2 name dt sub c2, filePath := path } : Sidecar)]).find?
        (fun sc => sc.id == st.nextId) =
      some { id := st.nextId, name := name, dataTypeValue := dt.value,
             metadata := storeMeta m1 name dt sub c1, filePath := path } := by
    rw [List.find?_append, List.find?_append]
    have h1 : st.sidecars.find? (fun sc => sc.id == st.nextId) = none :=
      List.find?_eq_none.mpr (fun sc hsc => by
        simpa using Nat.ne_of_lt (hfresh sc hsc))
    rw [h1]
    simp
  rw [hfind]
  simp [fsWrite]

/-- Claim C10 witness: the concrete double store of "v1" then "v2" under
the same name in an empty lake. -/
theorem dataLake_same_path_second_store_wins_witness :
    ∃ e1 st1 e2 st2,
      dlStore emptyLake "a" (some "v1") DataType.schema [] none = .ok (e1, st1) ∧
      dlStore st1 "a" (some "v2") DataType.schema [] none = .ok (e2, st2) ∧
      e1.id ≠ e2.id ∧
      e1.filePath = e2.filePath ∧
      ∃ e3, dlRetrieve st2 e1.id = .ok e3 ∧ e3.content = "v2" ∧ e3.id = e1.id ∧
        ("v1" ≠ "v2" → e3.content ≠ "v1") :=
  dataLake_same_path_second_store_wins emptyLake "a" "v1" "v2" DataType.schema
    [] [] none (by intro sc h; cases h) (by decide) (by decide)

/-! ## Theorems: collection naming and project-scoped search (C7, C9) -/

/-- Every character of a normalized string is in `[a-z0-9_]`. -/
theorem normalizeStr_chars (s : String) :
    ∀ c ∈ (normalizeStr s).data, isCollUnit c = true := by
  intro c hc
  unfold normalizeStr at hc
  simp only [List.mem_map] at hc
  obtain ⟨a, _, rfl⟩ := hc
  show isCollUnit (if isWordChar (pyLower a) then pyLower a else '_') = true
  unfold pyLower
  by_cases h : 'A' ≤ a ∧ a ≤ 'Z'
  · rw [if_pos h]
    generalize hg : lowerAZ a = b
    unfold lowerAZ at hg
    split at hg <;> (subst hg; decide)
  · rw [if_neg h]
    by_cases hw : isWordChar a = true
    · rw [if_pos hw]
      unfold isWordChar at hw
      unfold isCollUnit
      simp only [Bool.or_eq_true, Bool.and_eq_true, decide_eq_true_eq, beq_iff_eq] at hw ⊢
      tauto
    · rw [if_neg hw]
      decide

/-- Lower-case hex digits are in `[a-z0-9_]`. -/
theorem isCollUnit_of_isHexLower (c : Char) (h : isHexLower c = true) :
    isCollUnit c = true := by
  unfold isHexLower at h
  unfold isCollUnit
  simp only [Bool.or_eq_true, Bool.and_eq_true, decide_eq_true_eq, beq_iff_eq] at h ⊢
  rcases h with h1 | ⟨h1, h2⟩
  · exact Or.inl (Or.inr h1)
  · exact Or.inl (Or.inl ⟨h1, le_trans h2 (by decide)⟩)

/-- Both branches of `_normalize_collection_name` produce
`{prefix}_{only [a-z0-9_] characters}`. -/
theorem normalizeCollectionName_shape (md5Hex8 : String → String)
    (pref project fileName : String)
    (hmd5 : ∀ s, ∀ c ∈ (md5Hex8 s).data, isHexLower c = true) :
    ∃ rest : String, normalizeCollectionName md5Hex8 pref project fileName =
      pref ++ "_" ++ rest ∧ ∀ c ∈ rest.data, isCollUnit c = true := by
  unfold normalizeCollectionName
  dsimp only
  split
  · refine ⟨normalizeStr project ++ "_" ++ md5Hex8 fileName, by simp [String.append_assoc], ?_⟩
    intro c hc
    simp only [String.data_append, List.mem_append] at hc
    rcases hc with (hc | hc) | hc
    · exact normalizeStr_chars project c hc
    · simp only [show ("_" : String).data = ['_'] from rfl, List.mem_singleton] at hc
      subst hc; decide
    · exact isCollUnit_of_isHexLower c (hmd5 fileName c hc)
  · refine ⟨normalizeStr project ++ "_" ++
      normalizeStr (String.mk (pathStemChars fileName.data)), by simp [String.append_assoc], ?_⟩
    intro c hc
    simp only [String.data_append, List.mem_append] at hc
    rcases hc with (hc | hc) | hc
    · exact normalizeStr_chars project c hc
    · simp only [show ("_" : String).data = ['_'] from rfl, List.mem_singleton] at hc
      subst hc; decide
    · exact normalizeStr_chars _ c hc

set_option maxRecDepth 8000
set_option maxHeartbeats 1000000

/-- The sample digest is 8 lower-case hex characters, like a real
truncated MD5 hex digest. -/
theorem md5SampleDigest_hex (s : String) :
    (md5SampleDigest s).length = 8 ∧ ∀ c ∈ (md5SampleDigest s).data, isHexLower c = true :=
  ⟨rfl, show ∀ c ∈ ("0123abcd" : String).data, isHexLower c = true by decide⟩

/-- Claim C7 counterexample: with the default prefix and a 120-character
project name, the collection name is 143 characters long — the 100-character
bound is violated (the overflow fallback shortens only the file-name part,
not the project part). -/
theorem normalize_collection_name_over_100 :
    (normalizeCollectionName md5SampleDigest defaultCollPref longProject "x.py").length = 143 ∧
    ¬ (normalizeCollectionName md5SampleDigest defaultCollPref longProject "x.py").length ≤ 100 := by
  constructor
  · decide
  · decide

/-- Claim C7 amended: the name always has the shape `{prefix}_{chars in
[a-z0-9_]}` (so it is deterministic and normalized after the prefix); it is
at most 100 characters whenever `len(prefix) + len(normalized_project) + 10
≤ 100`; and whenever the un-hashed name would exceed 100 characters the
file-stem part is replaced by the 8-character truncated MD5 hex digest of
the original file name — but a long project part can still push the result
past 100 characters. -/
theorem normalize_collection_name_props (md5Hex8 : String → String)
    (pref project fileName : String)
    (hmd5 : ∀ s, (md5Hex8 s).length = 8 ∧ ∀ c ∈ (md5Hex8 s).data, isHexLower c = true) :
    (∃ rest : String, normalizeCollectionName md5Hex8 pref project fileName =
      pref ++ "_" ++ rest ∧ ∀ c ∈ rest.data, isCollUnit c = true) ∧
    (pref.length + (normalizeStr project).length + 10 ≤ 100 →
      (normalizeCollectionName md5Hex8 pref project fileName).length ≤ 100) ∧
    (100 < (pref ++ "_" ++ normalizeStr project ++ "_" ++
        normalizeStr (String.mk (pathStemChars fileName.data))).length →
      normalizeCollectionName md5Hex8 pref project fileName =
        pref ++ "_" ++ normalizeStr project ++ "_" ++ md5Hex8 fileName ∧
        (md5Hex8 fileName).length = 8) := by
  refine ⟨normalizeCollectionName_shape md5Hex8 pref project fileName
    (fun s => (hmd5 s).2), ?_, ?_⟩
  · intro hlen
    unfold normalizeCollectionName
    dsimp only
    split
    · simp only [String.length_append, (hmd5 fileName).1,
        show ("_" : String).length = 1 from rfl]
      omega
    · omega
  · intro hover
    unfold normalizeCollectionName
    dsimp only
    split
    · exact ⟨rfl, (hmd5 fileName).1⟩
    · omega

/-- Claim C7 amended witness: the spec's own example inputs, with the
sample 8-hex digest oracle. -/
theorem normalize_collection_name_props_witness :
    (∃ rest : String, normalizeCollectionName md5SampleDigest defaultCollPref
        "My Project!" "Auth Service.py" = defaultCollPref ++ "_" ++ rest ∧
      ∀ c ∈ rest.data, isCollUnit c = true) ∧
    (defaultCollPref.length + (normalizeStr "My Project!").length + 10 ≤ 100 →
      (normalizeCollectionName md5SampleDigest defaultCollPref
        "My Project!" "Auth Service.py").length ≤ 100) ∧
    (100 < (defaultCollPref ++ "_" ++ normalizeStr "My Project!" ++ "_" ++
        normalizeStr (String.mk (pathStemChars ("Auth Service.py" : String).data))).length →
      normalizeCollectionName md5SampleDigest defaultCollPref
          "My Project!" "Auth Service.py" =
        defaultCollPref ++ "_" ++ normalizeStr "My Project!" ++ "_" ++
          md5SampleDigest "Auth Service.py" ∧
        (md5SampleDigest "Auth Service.py").length = 8) :=
  normalize_collection_name_props md5SampleDigest defaultCollPref
    "My Project!" "Auth Service.py" md5SampleDigest_hex

/-- Every collection created by ingestion is a normalized collection name. -/
theorem mem_collectionsAfterIngests (md5Hex8 : String → String) (pref : String)
    (reqs : List (String × String)) (col : String)
    (hcol : col ∈ collectionsAfterIngests md5Hex8 pref reqs) :
    ∃ pr ∈ reqs, col = normalizeCollectionName md5Hex8 pref pr.1 pr.2 := by
  unfold collectionsAfterIngests at hcol
  suffices h : ∀ (acc : List String),
      col ∈ reqs.foldl (fun cols pr =>
        addCollection cols (normalizeCollectionName md5Hex8 pref pr.1 pr.2)) acc →
      col ∈ acc ∨ ∃ pr ∈ reqs, col = normalizeCollectionName md5Hex8 pref pr.1 pr.2 by
    rcases h [] hcol with h1 | h1
    · cases h1
    · exact h1
  clear hcol
  induction reqs with
  | nil => intro acc h; exact Or.inl h
  | cons pr rest ih =>
    intro acc h
    simp only [List.foldl_cons] at h
    rcases ih _ h with h1 | ⟨q, hq, rfl⟩
    · unfold addCollection at h1
      split at h1
      · exact Or.inl h1
      · rcases List.mem_append.mp h1 with h2 | h2
        · exact Or.inl h2
        · refine Or.inr ⟨pr, List.mem_cons_self pr rest, ?_⟩
          simpa using h2
    · exact Or.inr ⟨q, List.mem_cons_of_mem pr hq, rfl⟩

/-- Claim C9: ingestion names collections with the *normalized* project
string, while a project-scoped search filters on the *raw* project string;
for any project string containing a character outside `[a-z0-9_]` (an
upper-case letter, space, punctuation, ...), a search with that raw
project string matches no ingested collection and returns the empty result
immediately. -/
theorem ingest_then_search_raw_project_empty (md5Hex8 : String → String)
    (reqs : List (String × String)) (project : String)
    (hmd5 : ∀ s, ∀ c ∈ (md5Hex8 s).data, isHexLower c = true)
    (hbad : ∃ c ∈ project.data, isCollUnit c = false) :
    ragSearchProject defaultCollPref
      (collectionsAfterIngests md5Hex8 defaultCollPref reqs) project = some [] := by
  obtain ⟨cbad, hcmem, hcbad⟩ := hbad
  have hnone : searchProjectCollections defaultCollPref
      (collectionsAfterIngests md5Hex8 defaultCollPref reqs) project = [] := by
    unfold searchProjectCollections
    rw [List.filter_eq_nil_iff]
    intro col hcol hmatch
    obtain ⟨pr, _, rfl⟩ := mem_collectionsAfterIngests md5Hex8 defaultCollPref reqs col hcol
    obtain ⟨rest, hshape, hallowed⟩ :=
      normalizeCollectionName_shape md5Hex8 defaultCollPref pr.1 pr.2 hmd5
    rw [hshape] at hmatch
    unfold pyStartswith at hmatch
    rw [List.isPrefixOf_iff_prefix] at hmatch
    obtain ⟨t, ht⟩ := hmatch
    simp only [String.data_append, List.append_assoc] at ht
    have hcancel : project.data ++ ("_" : String).data ++ t = rest.data := by
      have := List.append_cancel_left (List.append_cancel_left ht)
      simpa [List.append_assoc] using this
    have hcrest : cbad ∈ rest.data := by
      rw [← hcancel]
      exact List.mem_append_left _ (List.mem_append_left _ hcmem)
    have := hallowed cbad hcrest
    rw [hcbad] at this
    cases this
  unfold ragSearchProject
  rw [hnone]
  rfl

/-- Claim C9 witness: after ingesting a file under project "My Project",
searching with the raw project string "My Project" returns no results. -/
theorem ingest_then_search_raw_project_empty_witness :
    ragSearchProject defaultCollPref
      (collectionsAfterIngests md5SampleDigest defaultCollPref
        [("My Project", "auth.py")]) "My Project" = some [] :=
  ingest_then_search_raw_project_empty md5SampleDigest
    [("My Project", "auth.py")] "My Project"
    (fun s => (md5SampleDigest_hex s).2) ⟨'M', by decide, by decide⟩

/-! ## Theorems: chunk overlap (C5) -/

/-- The head of a non-empty `dropWhile` result fails the predicate. -/
theorem head_dropWhile_false (p : Char → Bool) :
    ∀ (l : List Char) (c : Char) (t : List Char), l.dropWhile p = c :: t → p c = false := by
  intro l
  induction l with
  | nil => intro c t h; cases h
  | cons a l ih =>
    intro c t h
    by_cases ha : p a
    · rw [List.dropWhile_cons_of_pos ha] at h
      exact ih c t h
    · rw [List.dropWhile_cons_of_neg ha] at h
      cases h
      simpa using ha

/-- A list whose head fails the predicate survives `dropWhile`. -/
theorem dropWhile_eq_self_of_head (p : Char → Bool) (c : Char) (t : List Char)
    (h : p c = false) : (c :: t).dropWhile p = c :: t :=
  List.dropWhile_cons_of_neg (by simp [h])

/-- A list containing a failing element has a non-empty `dropWhile`. -/
theorem dropWhile_ne_nil_of_mem (p : Char → Bool) (l : List Char) (x : Char)
    (hx : x ∈ l) (hpx : p x = false) : l.dropWhile p ≠ [] := by
  intro hnil
  have : ∀ y ∈ l, p y = true := by
    intro y hy
    have := List.dropWhile_eq_nil_iff.mp hnil
    exact this y hy
  have := this x hx
  rw [hpx] at this
  cases this

/-- The head of a concatenation with a non-empty left part. -/
theorem headNonWS_append_left (x y : List Char) (hx : x ≠ []) :
    headNonWS (x ++ y) = headNonWS x := by
  cases x with
  | nil => exact absurd rfl hx
  | cons c t => rfl

/-- Appending to the left preserves a non-whitespace ending. -/
theorem endsNonWS_append (l s : List Char) (hs : endsNonWS s = true) :
    endsNonWS (l ++ s) = true := by
  unfold endsNonWS at *
  have hne : s.reverse ≠ [] := by
    intro h
    rw [h] at hs
    cases hs
  rw [List.reverse_append, headNonWS_append_left _ _ hne]
  exact hs

/-- Unpacking `headNonWS` on a cons cell. -/
theorem nonWS_of_headNonWS_cons (c : Char) (t : List Char)
    (h : headNonWS (c :: t) = true) : c.isWhitespace = false := by
  have h2 : (!c.isWhitespace) = true := h
  simpa using h2

/-- A trailing non-whitespace character survives a front `dropWhile`. -/
theorem endsNonWS_dropWhile (l : List Char) (h : endsNonWS l = true) :
    endsNonWS (l.dropWhile Char.isWhitespace) = true ∧
      l.dropWhile Char.isWhitespace ≠ [] := by
  obtain ⟨c, t, hrev⟩ : ∃ c t, l.reverse = c :: t := by
    cases hr : l.reverse with
    | nil => unfold endsNonWS at h; rw [hr] at h; cases h
    | cons c t => exact ⟨c, t, rfl⟩
  have hc : c.isWhitespace = false := by
    unfold endsNonWS at h
    rw [hrev] at h
    exact nonWS_of_headNonWS_cons c t h
  have hcl : c ∈ l := by
    have : c ∈ l.reverse := by rw [hrev]; exact List.mem_cons_self c t
    exact List.mem_reverse.mp this
  have hne : l.dropWhile Char.isWhitespace ≠ [] :=
    dropWhile_ne_nil_of_mem _ l c hcl hc
  refine ⟨?_, hne⟩
  obtain ⟨s, hs⟩ := List.dropWhile_suffix (l := l) (p := Char.isWhitespace)
  have hdne : (l.dropWhile Char.isWhitespace).reverse ≠ [] := by
    simpa using hne
  have heq : endsNonWS l = endsNonWS (l.dropWhile Char.isWhitespace) := by
    conv_lhs => rw [← hs]
    unfold endsNonWS
    rw [List.reverse_append, headNonWS_append_left _ _ hdne]
  rw [← heq]
  exact h

/-- With a non-whitespace ending, stripping reduces to the front
`dropWhile`. -/
theorem stripChars_of_endsNonWS (l : List Char) (h : endsNonWS l = true) :
    stripChars l = l.dropWhile Char.isWhitespace := by
  obtain ⟨hd, hne⟩ := endsNonWS_dropWhile l h
  unfold stripChars
  obtain ⟨c, t, hct⟩ : ∃ c t, (l.dropWhile Char.isWhitespace).reverse = c :: t := by
    cases hr : (l.dropWhile Char.isWhitespace).reverse with
    | nil =>
      rw [List.reverse_eq_nil_iff] at hr
      exact absurd hr hne
    | cons c t => exact ⟨c, t, rfl⟩
  have hc : c.isWhitespace = false := by
    unfold endsNonWS at hd
    rw [hct] at hd
    exact nonWS_of_headNonWS_cons c t hd
  rw [hct, dropWhile_eq_self_of_head _ _ _ hc, ← hct, List.reverse_reverse]

/-- A head- and tail-non-whitespace list is already stripped. -/
theorem stripChars_of_nonWS (l : List Char) (hh : headNonWS l = true)
    (he : endsNonWS l = true) : stripChars l = l := by
  rw [stripChars_of_endsNonWS l he]
  cases l with
  | nil => rfl
  | cons c t =>
    exact dropWhile_eq_self_of_head _ _ _ (nonWS_of_headNonWS_cons c t hh)

/-- A non-empty stripped list begins and ends in non-whitespace. -/
theorem stripChars_nonWS_of_ne_nil (l : List Char) (h : stripChars l ≠ []) :
    headNonWS (stripChars l) = true ∧ endsNonWS (stripChars l) = true := by
  unfold stripChars at h ⊢
  generalize hd : l.dropWhile Char.isWhitespace = d at h ⊢
  generalize he : d.reverse.dropWhile Char.isWhitespace = e at h ⊢
  have hene : e ≠ [] := by
    intro h0
    rw [h0] at h
    exact h rfl
  obtain ⟨c, t, hct⟩ : ∃ c t, e = c :: t := by
    cases h0 : e with
    | nil => exact absurd h0 hene
    | cons c t => exact ⟨c, t, rfl⟩
  have hc : c.isWhitespace = false :=
    head_dropWhile_false _ d.reverse c t (by rw [he, hct])
  constructor
  · obtain ⟨s, hs⟩ : e <:+ d.reverse :=
      he ▸ List.dropWhile_suffix (l := d.reverse) (p := Char.isWhitespace)
    have hdrev : d = e.reverse ++ s.reverse := by
      have h2 := congrArg List.reverse hs
      simpa [List.reverse_append] using h2.symm
    have herev : e.reverse ≠ [] := by simpa using hene
    obtain ⟨d0, dt, hdc⟩ : ∃ d0 dt, d = d0 :: dt := by
      cases h0 : d with
      | nil =>
        rw [h0] at hdrev
        rcases List.append_eq_nil.mp hdrev.symm with ⟨h1, _⟩
        exact absurd h1 herev
      | cons d0 dt => exact ⟨d0, dt, rfl⟩
    have hd0 : d0.isWhitespace = false :=
      head_dropWhile_false _ l d0 dt (by rw [hd, hdc])
    have hgoal : headNonWS e.reverse = headNonWS d := by
      rw [hdrev, headNonWS_append_left _ _ herev]
    rw [hgoal, hdc]
    show (!d0.isWhitespace) = true
    simp [hd0]
  · unfold endsNonWS
    rw [List.reverse_reverse, hct]
    show (!c.isWhitespace) = true
    simp [hc]

/-- Taking the last `n` characters commutes with dropping a whitespace
front, as long as `n` characters remain. -/
theorem takeLastN_dropWhile (l : List Char) (n : Nat)
    (hle : n ≤ (l.dropWhile Char.isWhitespace).length) :
    takeLastN n (l.dropWhile Char.isWhitespace) = takeLastN n l := by
  obtain ⟨s, hs⟩ := List.dropWhile_suffix (l := l) (p := Char.isWhitespace)
  conv_rhs => rw [← hs]
  unfold takeLastN
  rw [List.drop_append_eq_append_drop]
  have h1 : (s ++ l.dropWhile Char.isWhitespace).length =
      s.length + (l.dropWhile Char.isWhitespace).length := List.length_append _ _
  rw [h1]
  have h2 : s.length + (l.dropWhile Char.isWhitespace).length - n - s.length =
      (l.dropWhile Char.isWhitespace).length - n := by omega
  have h3 : s.drop (s.length + (l.dropWhile Char.isWhitespace).length - n) = [] := by
    apply List.drop_eq_nil_of_le
    omega
  rw [h2, h3, List.nil_append]

/-- The overlap slice heads its own extension. -/
theorem takeLastN_prefix_append (n : Nat) (l m : List Char) :
    takeLastN n l <+: takeLastN n l ++ m :=
  List.prefix_append _ _

/-- Membership in the optional head is membership. -/
theorem mem_of_head? (l : List Char) (b : Char) (h : l.head? = some b) : b ∈ l := by
  cases l with
  | nil => cases h
  | cons c t =>
    simp only [List.head?_cons, Option.some.injEq] at h
    subst h
    exact List.mem_cons_self c t

/-- Strengthen a chain relation using facts about the list's members. -/
theorem chain'_imp_mem {α : Type} {R S : α → α → Prop} :
    ∀ (l : List α), (∀ a ∈ l, ∀ b ∈ l, R a b → S a b) →
      List.Chain' R l → List.Chain' S l := by
  intro l
  induction l with
  | nil => intro _ _; exact List.chain'_nil
  | cons a l ih =>
    intro h hc
    rw [List.chain'_cons'] at hc ⊢
    refine ⟨?_, ih (fun x hx y hy hr =>
      h x (List.mem_cons_of_mem _ hx) y (List.mem_cons_of_mem _ hy) hr) hc.2⟩
    intro b hb
    have hbl : b ∈ l := by
      cases l with
      | nil => cases hb
      | cons c t =>
        simp only [List.head?_cons, Option.mem_def, Option.some.injEq] at hb
        subst hb
        exact List.mem_cons_self c t
    exact h a (List.mem_cons_self a l) b (List.mem_cons_of_mem _ hbl) (hc.1 b hb)

/-- Membership in `pushSeg` is the stripped slice or the tail. -/
theorem mem_pushSeg (cur : List Char) (rest : List (List Char)) (s : List Char)
    (hs : s ∈ pushSeg cur rest) :
    (s = stripChars cur.reverse ∧ s ≠ []) ∨ s ∈ rest := by
  unfold pushSeg at hs
  split at hs
  · exact Or.inr hs
  · rcases List.mem_cons.mp hs with h | h
    · refine Or.inl ⟨h, ?_⟩
      subst h
      intro h0
      simp [h0] at *
    · exact Or.inr h

/-- Every segment `split_text_aware` emits (in the modeled general case)
is non-empty and stripped at both ends. -/
theorem splitGo_valid : ∀ (n : Nat) (l cur : List Char), l.length ≤ n →
    ∀ s ∈ splitGo l cur,
      s ≠ [] ∧ headNonWS s = true ∧ endsNonWS s = true := by
  intro n
  induction n with
  | zero =>
    intro l cur hlen s hs
    have hl : l = [] := List.length_eq_zero.mp (Nat.le_zero.mp hlen)
    subst hl
    rcases mem_pushSeg cur [] s hs with ⟨hse, hne⟩ | h
    · subst hse
      obtain ⟨hh, he⟩ := stripChars_nonWS_of_ne_nil cur.reverse hne
      exact ⟨hne, hh, he⟩
    · cases h
  | succ n ih =>
    intro l cur hlen s hs
    rw [splitGo.eq_def] at hs
    split at hs
    · rename_i rest
      rcases mem_pushSeg cur (splitGo rest []) s hs with ⟨hse, hne⟩ | h
      · subst hse
        obtain ⟨hh, he⟩ := stripChars_nonWS_of_ne_nil cur.reverse hne
        exact ⟨hne, hh, he⟩
      · refine ih rest [] ?_ s h
        simp at hlen
        omega
    · rename_i c rest hno
      refine ih rest (c :: cur) ?_ s hs
      simp at hlen
      omega
    · rcases mem_pushSeg cur [] s hs with ⟨hse, hne⟩ | h
      · subst hse
        obtain ⟨hh, he⟩ := stripChars_nonWS_of_ne_nil cur.reverse hne
        exact ⟨hne, hh, he⟩
      · cases h

/-- One discard-free loop iteration preserves the invariant. -/
theorem invP_step (acc : ChunkAcc) (seg : List Char)
    (hinv : InvP acc)
    (hseg : seg ≠ [] ∧ headNonWS seg = true ∧ endsNonWS seg = true)
    (hnd : (decide (countTokens (sepJoin acc.current seg) ≤ 512 ∧ acc.current ≠ []) ||
            acc.current.isEmpty ||
            decide (100 ≤ countTokens acc.current)) = true) :
    InvP (chunkStep 512 50 100 acc seg) := by
  obtain ⟨hchain, hends, hthird⟩ := hinv
  unfold chunkStep
  by_cases h1 : countTokens (sepJoin acc.current seg) ≤ 512 ∧ acc.current ≠ []
  · rw [if_pos h1]
    rcases hthird with ⟨hemp, _⟩ | ⟨hne, hend, hlink⟩
    · exact absurd hemp h1.2
    · refine ⟨hchain, hends, Or.inr ⟨?_, ?_, ?_⟩⟩
      · unfold sepJoin
        intro h0
        rcases List.append_eq_nil.mp h0 with ⟨_, h2⟩
        exact hseg.1 h2
      · unfold sepJoin
        exact endsNonWS_append _ _ hseg.2.2
      · intro c hc
        show takeLastN 200 c.raw <+:
          (acc.current ++ if acc.current.isEmpty = true then [] else ['\n', '\n']) ++ seg
        rw [List.append_assoc]
        exact (hlink c hc).trans (List.prefix_append _ _)
  · rw [if_neg h1]
    by_cases h2 : acc.current = []
    · rw [if_pos h2]
      rcases hthird with ⟨_, hchunks⟩ | ⟨hne, _⟩
      · refine ⟨hchain, hends, Or.inr ⟨hseg.1, hseg.2.2, ?_⟩⟩
        intro c hc
        rw [hchunks] at hc
        cases hc
      · exact absurd h2 hne
    · rw [if_neg h2]
      rcases hthird with ⟨hemp, _⟩ | ⟨hne, hend, hlink⟩
      · exact absurd hemp h2
      · by_cases h3 : 100 ≤ countTokens acc.current
        · rw [if_pos h3]
          refine ⟨?_, ?_, Or.inr ⟨?_, ?_, ?_⟩⟩
          · rw [List.chain'_append]
            refine ⟨hchain, List.chain'_singleton _, ?_⟩
            intro x hx y hy
            simp only [List.head?_cons, Option.mem_def, Option.some.injEq] at hy
            subst hy
            exact hlink x hx
          · intro c hc
            rcases List.mem_append.mp hc with h | h
            · exact hends c h
            · simp only [List.mem_singleton] at h
              subst h
              exact hend
          · intro h0
            rcases List.append_eq_nil.mp h0 with ⟨_, h4⟩
            exact hseg.1 h4
          · exact endsNonWS_append _ _ hseg.2.2
          · intro c hc
            rw [List.getLast?_concat] at hc
            cases hc
            show takeLastN 200 acc.current <+:
              (takeLastN 200 acc.current ++ ['\n', '\n']) ++ seg
            rw [List.append_assoc]
            exact List.prefix_append _ _
        · exfalso
          have hd1 : decide (countTokens (sepJoin acc.current seg) ≤ 512 ∧
              acc.current ≠ []) = false := by
            simpa using h1
          have hd2 : acc.current.isEmpty = false := by
            simpa using h2
          have hd3 : decide (100 ≤ countTokens acc.current) = false := by
            simpa using h3
          rw [hd1, hd2, hd3] at hnd
          cases hnd

/-- The invariant holds after a discard-free fold over valid segments. -/
theorem invP_foldl : ∀ (segs : List (List Char)) (acc : ChunkAcc),
    InvP acc →
    (∀ s ∈ segs, s ≠ [] ∧ headNonWS s = true ∧ endsNonWS s = true) →
    noDiscards 512 50 100 acc segs = true →
    InvP (segs.foldl (chunkStep 512 50 100) acc) := by
  intro segs
  induction segs with
  | nil => intro acc h _ _; exact h
  | cons seg rest ih =>
    intro acc hinv hval hnd
    rw [noDiscards] at hnd
    rw [Bool.and_eq_true] at hnd
    rw [List.foldl_cons]
    exact ih _ (invP_step acc seg hinv (hval seg (List.mem_cons_self _ _)) hnd.1)
      (fun s hs => hval s (List.mem_cons_of_mem _ hs)) hnd.2

/-- The trailing emission keeps the chain and the non-whitespace endings. -/
theorem chunkFinalize_props (acc : ChunkAcc) (hinv : InvP acc) :
    List.Chain' AdjOK (chunkFinalize 100 acc) ∧
      ∀ c ∈ chunkFinalize 100 acc, endsNonWS c.raw = true := by
  obtain ⟨hchain, hends, hthird⟩ := hinv
  unfold chunkFinalize
  split
  · rename_i hcond
    rcases hthird with ⟨hemp, _⟩ | ⟨hne, hend, hlink⟩
    · exact absurd hemp hcond.1
    · constructor
      · rw [List.chain'_append]
        refine ⟨hchain, List.chain'_singleton _, ?_⟩
        intro x hx y hy
        simp only [List.head?_cons, Option.mem_def, Option.some.injEq] at hy
        subst hy
        exact hlink x hx
      · intro c hc
        rcases List.mem_append.mp hc with h | h
        · exact hends c h
        · simp only [List.mem_singleton] at h
          subst h
          exact hend
  · exact ⟨hchain, hends⟩

/-- Transfer the raw-accumulator overlap link to the stripped chunk texts,
under the claim's side conditions. -/
theorem adjOK_to_text (c c2 : TextChunk)
    (hend : endsNonWS c.raw = true) (hend2 : endsNonWS c2.raw = true)
    (hadj : AdjOK c c2)
    (hlen : 200 ≤ c.text.length)
    (hhead : headNonWS (takeLastN 200 c.text) = true) :
    takeLastN 200 c.text <+: c2.text := by
  have htext : c.text = c.raw.dropWhile Char.isWhitespace :=
    stripChars_of_endsNonWS c.raw hend
  have hov : takeLastN 200 c.text = takeLastN 200 c.raw := by
    rw [htext]
    refine takeLastN_dropWhile c.raw 200 ?_
    rw [← htext]
    exact hlen
  obtain ⟨t, ht⟩ := hadj
  have hraw2 : c2.raw = takeLastN 200 c.raw ++ t := ht.symm
  have htext2 : c2.text = c2.raw := by
    show stripChars c2.raw = c2.raw
    rw [stripChars_of_endsNonWS c2.raw hend2, hraw2]
    rw [hov] at hhead
    obtain ⟨o, u, hou⟩ : ∃ o u, takeLastN 200 c.raw = o :: u := by
      cases h0 : takeLastN 200 c.raw with
      | nil => rw [h0] at hhead; cases hhead
      | cons o u => exact ⟨o, u, rfl⟩
    rw [hou]
    rw [hou] at hhead
    exact dropWhile_eq_self_of_head _ _ _ (nonWS_of_headNonWS_cons o u hhead)
  rw [htext2, hraw2, hov]
  exact List.prefix_append _ _

/-- Claim C5 amended: in the character-approximation mode, for any general
document whose chunking run never discards an under-`min_chunk_size`
accumulator at an overflow, consecutive emitted chunks satisfy the overlap
property: whenever chunk k's text is at least 200 characters long and its
last-200-character slice starts with a non-whitespace character, that
slice reappears as a prefix of chunk k+1's text.  (The discard-free
hypothesis is necessary — see the counterexample — and the stripping of
chunk text forces the non-whitespace side condition.) -/
theorem chunk_overlap_requires_no_discard (text : List Char)
    (hnd : noDiscards 512 50 100 { chunks := [], current := [], chunkId := 0 }
      (splitSegsGeneral text) = true) :
    List.Chain' (fun c c2 =>
      200 ≤ c.text.length →
      headNonWS (takeLastN 200 c.text) = true →
      takeLastN 200 c.text <+: c2.text)
      (chunkDocumentGeneral text) := by
  unfold chunkDocumentGeneral createChunksWithOverlap
  split
  · exact List.chain'_nil
  · have hinv0 : InvP { chunks := [], current := [], chunkId := 0 } :=
      ⟨List.chain'_nil, fun c hc => absurd hc (List.not_mem_nil c), Or.inl ⟨rfl, rfl⟩⟩
    have hval : ∀ s ∈ splitSegsGeneral text,
        s ≠ [] ∧ headNonWS s = true ∧ endsNonWS s = true := by
      intro s hs
      exact splitGo_valid text.length text [] (Nat.le_refl _) s hs
    have hinv := invP_foldl (splitSegsGeneral text) _ hinv0 hval hnd
    obtain ⟨hchain, hends⟩ := chunkFinalize_props _ hinv
    exact chain'_imp_mem _
      (fun a ha b hb hr hl hh => adjOK_to_text a b (hends a ha) (hends b hb) hr hl hh)
      hchain

/-- With a non-empty accumulator the separator is a paragraph break. -/
theorem sepJoin_of_ne (current seg : List Char) (h : current ≠ []) :
    sepJoin current seg = (current ++ ['\n', '\n']) ++ seg := by
  unfold sepJoin
  rw [if_neg (by simpa [List.isEmpty_iff] using h), List.append_assoc]

/-- The first segment just becomes the accumulator. -/
theorem chunkStep_start (seg : List Char) :
    chunkStep 512 50 100 { chunks := [], current := [], chunkId := 0 } seg =
      { chunks := [], current := seg, chunkId := 0 } := by
  unfold chunkStep
  rw [if_neg (fun h => h.2 rfl), if_pos rfl]

/-- An overflow step on a big-enough accumulator emits it and carries the
200-character overlap. -/
theorem chunkStep_emit (chunks : List TextChunk) (current : List Char)
    (cid : Nat) (seg : List Char)
    (hne : current ≠ [])
    (hover : ¬ countTokens (sepJoin current seg) ≤ 512)
    (hmin : 100 ≤ countTokens current) :
    chunkStep 512 50 100 { chunks := chunks, current := current, chunkId := cid } seg =
      { chunks := chunks ++ [{ raw := current, chunkId := cid }],
        current := (takeLastN 200 current ++ ['\n', '\n']) ++ seg,
        chunkId := cid + 1 } := by
  unfold chunkStep
  rw [if_neg (fun h => hover h.1), if_neg hne, if_pos hmin, List.append_assoc]

/-- An overflow step on an under-sized accumulator silently discards it. -/
theorem chunkStep_discard (chunks : List TextChunk) (current : List Char)
    (cid : Nat) (seg : List Char)
    (hne : current ≠ [])
    (hover : ¬ countTokens (sepJoin current seg) ≤ 512)
    (hmin : ¬ 100 ≤ countTokens current) :
    chunkStep 512 50 100 { chunks := chunks, current := current, chunkId := cid } seg =
      { chunks := chunks,
        current := (takeLastN 200 current ++ ['\n', '\n']) ++ seg,
        chunkId := cid } := by
  unfold chunkStep
  rw [if_neg (fun h => hover h.1), if_neg hne, if_neg hmin, List.append_assoc]

/-- Splitting consumes a non-newline character into the slice. -/
theorem splitGo_cons_ne (c : Char) (hc : c ≠ '\n') (rest cur : List Char) :
    splitGo (c :: rest) cur = splitGo rest (c :: cur) := by
  rw [splitGo.eq_def]
  split
  · rename_i heq
    exfalso
    injection heq with h1 _
    exact hc h1
  · rename_i cc crest hno2 heq
    injection heq with h1 h2
    subst h1
    subst h2
    rfl
  · rename_i heq
    exact absurd heq (List.cons_ne_nil c rest)

/-- Splitting absorbs a whole run of one non-newline character. -/
theorem splitGo_replicate (ch : Char) (hch : ch ≠ '\n') :
    ∀ (n : Nat) (l cur : List Char),
      splitGo (List.replicate n ch ++ l) cur =
        splitGo l (List.replicate n ch ++ cur) := by
  intro n
  induction n with
  | zero => intro l cur; simp
  | succ n ih =>
    intro l cur
    rw [List.replicate_succ, List.cons_append, splitGo_cons_ne ch hch, ih]
    congr 1
    rw [show (ch :: cur) = [ch] ++ cur from rfl, ← List.append_assoc,
      ← List.replicate_succ' n ch, List.replicate_succ, List.cons_append]

/-- A paragraph break emits the pending slice. -/
theorem splitGo_nn (r cur : List Char) :
    splitGo ('\n' :: '\n' :: r) cur = pushSeg cur (splitGo r []) := rfl

/-- A trailing character run closes the final slice. -/
theorem splitGo_replicate_end (ch : Char) (hch : ch ≠ '\n') (n : Nat)
    (cur : List Char) :
    splitGo (List.replicate n ch) cur = pushSeg (List.replicate n ch ++ cur) [] := by
  have h := splitGo_replicate ch hch n [] cur
  rw [List.append_nil] at h
  rw [h]
  rfl

/-- Stripping a non-whitespace character run is the identity. -/
theorem stripChars_replicate (n : Nat) (ch : Char) (hch : ch.isWhitespace = false) :
    stripChars (List.replicate n ch) = List.replicate n ch := by
  cases n with
  | zero => rfl
  | succ n =>
    apply stripChars_of_nonWS
    · rw [List.replicate_succ]
      show (!ch.isWhitespace) = true
      simp [hch]
    · unfold endsNonWS
      rw [List.reverse_replicate, List.replicate_succ]
      show (!ch.isWhitespace) = true
      simp [hch]

/-- `pushSeg` of a non-whitespace character run emits it unchanged. -/
theorem pushSeg_replicate (n : Nat) (ch : Char) (hch : ch.isWhitespace = false)
    (hn : 0 < n) (rest : List (List Char)) :
    pushSeg (List.replicate n ch) rest = List.replicate n ch :: rest := by
  unfold pushSeg
  rw [List.reverse_replicate, stripChars_replicate n ch hch]
  rw [if_neg]
  simp [List.isEmpty_iff]
  omega

/-- The last 200 characters of a longer run. -/
theorem takeLastN_replicate (k n : Nat) (ch : Char) (hk : k ≤ n) :
    takeLastN k (List.replicate n ch) = List.replicate k ch := by
  unfold takeLastN
  rw [List.length_replicate, List.drop_replicate]
  congr 1
  omega

/-- A positive-length run of a non-whitespace character starts
non-whitespace. -/
theorem headNonWS_replicate (n : Nat) (ch : Char) (hn : 0 < n)
    (hch : ch.isWhitespace = false) :
    headNonWS (List.replicate n ch) = true := by
  cases n with
  | zero => omega
  | succ n =>
    rw [List.replicate_succ]
    show (!ch.isWhitespace) = true
    simp [hch]

/-- A positive-length run of a non-whitespace character ends
non-whitespace. -/
theorem endsNonWS_replicate (n : Nat) (ch : Char) (hn : 0 < n)
    (hch : ch.isWhitespace = false) :
    endsNonWS (List.replicate n ch) = true := by
  unfold endsNonWS
  rw [List.reverse_replicate]
  exact headNonWS_replicate n ch hn hch

/-- The counterexample document splits into its three letter runs. -/
theorem splitSegs_docC5 :
    splitSegsGeneral docC5 =
      [List.replicate 2040 'a', List.replicate 100 'b', List.replicate 1800 'c'] := by
  unfold splitSegsGeneral docC5
  simp only [List.append_assoc]
  rw [splitGo_replicate 'a' (by decide) 2040, List.append_nil]
  simp only [List.cons_append, List.nil_append]
  rw [splitGo_nn, splitGo_replicate 'b' (by decide) 100, List.append_nil]
  rw [splitGo_nn, splitGo_replicate_end 'c' (by decide) 1800, List.append_nil]
  rw [pushSeg_replicate 1800 'c' (by decide) (by omega),
    pushSeg_replicate 100 'b' (by decide) (by omega),
    pushSeg_replicate 2040 'a' (by decide) (by omega)]

/-- The witness document splits into its two letter runs. -/
theorem splitSegs_docC5ok :
    splitSegsGeneral docC5ok =
      [List.replicate 2040 'a', List.replicate 1800 'c'] := by
  unfold splitSegsGeneral docC5ok
  simp only [List.append_assoc]
  rw [splitGo_replicate 'a' (by decide) 2040, List.append_nil]
  simp only [List.cons_append, List.nil_append]
  rw [splitGo_nn, splitGo_replicate_end 'c' (by decide) 1800, List.append_nil]
  rw [pushSeg_replicate 1800 'c' (by decide) (by omega),
    pushSeg_replicate 2040 'a' (by decide) (by omega)]

/-- The chunker's output on the counterexample document: the first
paragraph is emitted whole; the middle accumulator (overlap + 100-char
paragraph, only 75 tokens) is discarded at the next overflow, and the
final chunk starts with the overlap of the *discarded* accumulator, not
of the first chunk. -/
theorem chunks_docC5 :
    chunkDocumentGeneral docC5 =
      [{ raw := List.replicate 2040 'a', chunkId := 0 },
       { raw := (((List.replicate 98 'a' ++ ['\n', '\n']) ++ List.replicate 100 'b') ++
           ['\n', '\n']) ++ List.replicate 1800 'c', chunkId := 1 }] := by
  have hane : (List.replicate 2040 'a' : List Char) ≠ [] := by
    intro h
    rw [List.replicate_eq_nil_iff] at h
    omega
  have hguard : ¬ (stripChars docC5).isEmpty = true := by
    have hh : headNonWS docC5 = true := by
      unfold docC5
      simp only [List.append_assoc]
      rw [headNonWS_append_left _ _ hane]
      exact headNonWS_replicate 2040 'a' (by omega) (by decide)
    have he : endsNonWS docC5 = true := by
      unfold docC5
      exact endsNonWS_append _ _ (endsNonWS_replicate 1800 'c' (by omega) (by decide))
    rw [stripChars_of_nonWS docC5 hh he]
    unfold docC5
    simp only [List.isEmpty_iff]
    intro h
    have h2 := (List.append_eq_nil.mp h).2
    rw [List.replicate_eq_nil_iff] at h2
    omega
  unfold chunkDocumentGeneral createChunksWithOverlap
  rw [if_neg hguard, splitSegs_docC5]
  rw [List.foldl_cons, chunkStep_start]
  have hov1 : ¬ countTokens (sepJoin (List.replicate 2040 'a')
      (List.replicate 100 'b')) ≤ 512 := by
    rw [sepJoin_of_ne _ _ hane]
    unfold countTokens
    simp [List.length_append, List.length_replicate]
  have hmin1 : 100 ≤ countTokens (List.replicate 2040 'a') := by
    unfold countTokens
    rw [List.length_replicate]
    omega
  rw [List.foldl_cons, chunkStep_emit [] _ 0 _ hane hov1 hmin1,
    takeLastN_replicate 200 2040 'a' (by omega)]
  have hcur2ne : ((List.replicate 200 'a' ++ ['\n', '\n']) ++
      List.replicate 100 'b' : List Char) ≠ [] := by
    intro h
    have h2 := (List.append_eq_nil.mp h).2
    rw [List.replicate_eq_nil_iff] at h2
    omega
  have hov2 : ¬ countTokens (sepJoin ((List.replicate 200 'a' ++ ['\n', '\n']) ++
      List.replicate 100 'b') (List.replicate 1800 'c')) ≤ 512 := by
    rw [sepJoin_of_ne _ _ hcur2ne]
    unfold countTokens
    simp [List.length_append, List.length_replicate]
  have hmin2 : ¬ 100 ≤ countTokens ((List.replicate 200 'a' ++ ['\n', '\n']) ++
      List.replicate 100 'b') := by
    unfold countTokens
    simp [List.length_append, List.length_replicate]
  rw [List.foldl_cons, chunkStep_discard _ _ _ _ hcur2ne hov2 hmin2, List.foldl_nil]
  have htl : takeLastN 200 ((List.replicate 200 'a' ++ ['\n', '\n']) ++
      List.replicate 100 'b') = (List.replicate 98 'a' ++ ['\n', '\n']) ++
      List.replicate 100 'b' := by
    unfold takeLastN
    simp only [List.length_append, List.length_replicate, List.length_cons,
      List.length_nil]
    rw [List.drop_append_eq_append_drop, List.drop_append_eq_append_drop,
      List.drop_replicate]
    norm_num
  rw [htl]
  unfold chunkFinalize
  have hfinne : ((((List.replicate 98 'a' ++ ['\n', '\n']) ++ List.replicate 100 'b') ++
      ['\n', '\n']) ++ List.replicate 1800 'c' : List Char) ≠ [] := by
    intro h
    have h2 := (List.append_eq_nil.mp h).2
    rw [List.replicate_eq_nil_iff] at h2
    omega
  have hfinmin : 100 ≤ countTokens ((((List.replicate 98 'a' ++ ['\n', '\n']) ++
      List.replicate 100 'b') ++ ['\n', '\n']) ++ List.replicate 1800 'c') := by
    unfold countTokens
    simp only [List.length_append, List.length_replicate, List.length_cons,
      List.length_nil]
    norm_num
  rw [if_pos ⟨hfinne, hfinmin⟩]
  rfl

/-- Claim C5 counterexample: the counterexample document yields two
chunks, the first 2040 characters long, yet the last 200 characters of
chunk 0 do *not* reappear as a prefix of chunk 1 — the under-sized
accumulator between the two emissions was discarded, and only 98 of the
200 overlap characters survive into chunk 1. -/
theorem chunk_overlap_claim_fails :
    chunkDocumentGeneral docC5 =
      [{ raw := List.replicate 2040 'a', chunkId := 0 },
       { raw := (((List.replicate 98 'a' ++ ['\n', '\n']) ++ List.replicate 100 'b') ++
           ['\n', '\n']) ++ List.replicate 1800 'c', chunkId := 1 }] ∧
    ¬ (takeLastN 200 (TextChunk.text { raw := List.replicate 2040 'a', chunkId := 0 }) <+:
        TextChunk.text { raw := (((List.replicate 98 'a' ++ ['\n', '\n']) ++
          List.replicate 100 'b') ++ ['\n', '\n']) ++ List.replicate 1800 'c', chunkId := 1 }) := by
  refine ⟨chunks_docC5, ?_⟩
  intro hpre
  have htext0 : TextChunk.text { raw := List.replicate 2040 'a', chunkId := 0 } =
      List.replicate 2040 'a' := stripChars_replicate 2040 'a' (by decide)
  have hraw1 : headNonWS ((((List.replicate 98 'a' ++ ['\n', '\n']) ++
      List.replicate 100 'b') ++ ['\n', '\n']) ++ List.replicate 1800 'c') = true := by
    simp only [List.append_assoc]
    rw [headNonWS_append_left _ _ (by simp : (List.replicate 98 'a' : List Char) ≠ [])]
    exact headNonWS_replicate 98 'a' (by omega) (by decide)
  have hraw2 : endsNonWS ((((List.replicate 98 'a' ++ ['\n', '\n']) ++
      List.replicate 100 'b') ++ ['\n', '\n']) ++ List.replicate 1800 'c') = true :=
    endsNonWS_append _ _ (endsNonWS_replicate 1800 'c' (by omega) (by decide))
  have htext1 : TextChunk.text { raw := (((List.replicate 98 'a' ++ ['\n', '\n']) ++
      List.replicate 100 'b') ++ ['\n', '\n']) ++ List.replicate 1800 'c', chunkId := 1 } =
      (((List.replicate 98 'a' ++ ['\n', '\n']) ++
      List.replicate 100 'b') ++ ['\n', '\n']) ++ List.replicate 1800 'c' :=
    stripChars_of_nonWS _ hraw1 hraw2
  rw [htext0, htext1, takeLastN_replicate 200 2040 'a' (by omega)] at hpre
  rw [List.prefix_iff_eq_take] at hpre
  have htake : ((((List.replicate 98 'a' ++ ['\n', '\n']) ++ List.replicate 100 'b') ++
      ['\n', '\n']) ++ List.replicate 1800 'c').take (List.replicate 200 'a').length =
      (List.replicate 98 'a' ++ ['\n', '\n']) ++ List.replicate 100 'b' := by
    rw [List.length_replicate]
    rw [List.take_append_eq_append_take, List.take_append_eq_append_take]
    simp only [List.length_append, List.length_replicate, List.length_cons,
      List.length_nil]
    norm_num
  rw [htake] at hpre
  have hcount := congrArg (List.count '\n') hpre
  rw [List.count_append, List.count_append, List.count_replicate,
    List.count_replicate, List.count_replicate] at hcount
  simp at hcount

/-- The witness run is discard-free: the first paragraph is 510 tokens
when the overflow arrives. -/
theorem noDiscards_docC5ok :
    noDiscards 512 50 100 { chunks := [], current := [], chunkId := 0 }
      (splitSegsGeneral docC5ok) = true := by
  rw [splitSegs_docC5ok]
  unfold noDiscards
  rw [chunkStep_start]
  have hmin : decide (100 ≤ countTokens (List.replicate 2040 'a')) = true := by
    rw [decide_eq_true_eq]
    unfold countTokens
    rw [List.length_replicate]
    omega
  simp only [List.isEmpty_nil, Bool.or_true, Bool.true_or, Bool.true_and,
    Bool.and_true]
  unfold noDiscards
  simp only [hmin, Bool.or_true, Bool.true_or, Bool.true_and, Bool.and_true]
  unfold noDiscards
  exact rfl

/-- Evaluating the chunker on the two-paragraph witness document: the
first paragraph is emitted whole, and the second chunk is the
200-character overlap, the separator, and the second paragraph. -/
theorem chunks_docC5ok :
    chunkDocumentGeneral docC5ok =
      [{ raw := List.replicate 2040 'a', chunkId := 0 },
       { raw := (List.replicate 200 'a' ++ ['\n', '\n']) ++ List.replicate 1800 'c',
         chunkId := 1 }] := by
  have hane : (List.replicate 2040 'a' : List Char) ≠ [] := by
    intro h
    rw [List.replicate_eq_nil_iff] at h
    omega
  have hguard : ¬ (stripChars docC5ok).isEmpty = true := by
    have hh : headNonWS docC5ok = true := by
      unfold docC5ok
      simp only [List.append_assoc]
      rw [headNonWS_append_left _ _ hane]
      exact headNonWS_replicate 2040 'a' (by omega) (by decide)
    have he : endsNonWS docC5ok = true := by
      unfold docC5ok
      exact endsNonWS_append _ _ (endsNonWS_replicate 1800 'c' (by omega) (by decide))
    rw [stripChars_of_nonWS docC5ok hh he]
    unfold docC5ok
    simp only [List.isEmpty_iff]
    intro h
    have h2 := (List.append_eq_nil.mp h).2
    rw [List.replicate_eq_nil_iff] at h2
    omega
  unfold chunkDocumentGeneral createChunksWithOverlap
  rw [if_neg hguard, splitSegs_docC5ok]
  rw [List.foldl_cons, chunkStep_start]
  have hov1 : ¬ countTokens (sepJoin (List.replicate 2040 'a')
      (List.replicate 1800 'c')) ≤ 512 := by
    rw [sepJoin_of_ne _ _ hane]
    unfold countTokens
    simp only [List.length_append, List.length_replicate, List.length_cons,
      List.length_nil]
    omega
  have hmin1 : 100 ≤ countTokens (List.replicate 2040 'a') := by
    unfold countTokens
    rw [List.length_replicate]
    omega
  rw [List.foldl_cons, chunkStep_emit [] _ 0 _ hane hov1 hmin1,
    takeLastN_replicate 200 2040 'a' (by omega), List.foldl_nil]
  unfold chunkFinalize
  have hfinne : ((List.replicate 200 'a' ++ ['\n', '\n']) ++
      List.replicate 1800 'c' : List Char) ≠ [] := by
    intro h
    have h2 := (List.append_eq_nil.mp h).2
    rw [List.replicate_eq_nil_iff] at h2
    omega
  have hfinmin : 100 ≤ countTokens ((List.replicate 200 'a' ++ ['\n', '\n']) ++
      List.replicate 1800 'c') := by
    unfold countTokens
    simp only [List.length_append, List.length_replicate, List.length_cons,
      List.length_nil]
    norm_num
  rw [if_pos ⟨hfinne, hfinmin⟩]
  rfl

attribute [irreducible] docC5ok

/-- Claim C5 amended witness: the two-paragraph witness document runs
discard-free, and its two chunks — written out explicitly — satisfy the
conditional overlap property. -/
theorem chunk_overlap_requires_no_discard_witness :
    List.Chain' (fun c c2 : TextChunk =>
      200 ≤ c.text.length →
      headNonWS (takeLastN 200 c.text) = true →
      takeLastN 200 c.text <+: c2.text)
      [{ raw := List.replicate 2040 'a', chunkId := 0 },
       { raw := (List.replicate 200 'a' ++ ['\n', '\n']) ++ List.replicate 1800 'c',
         chunkId := 1 }] := by
  have h := chunk_overlap_requires_no_discard docC5ok noDiscards_docC5ok
  rwa [chunks_docC5ok] at h

/-! ## Theorems: priority scoring (C3) -/

/-- Claim C3 counterexample: at the unix timestamp 1,700,000,000 (November
2023) the timestamp term is 1700, not < 1.0; and a low-priority job
enqueued then scores 1704 while an urgent job enqueued 46 days later
(timestamp 1,704,000,000) scores 1705, so `zpopmin` dequeues the
low-priority job first — the higher tier does not always win regardless of
enqueue times. -/
theorem priority_score_claim_fails :
    ¬ timestampTerm 1700000000 < 1 ∧
    priorityScore "low" 1700000000 < priorityScore "urgent" 1704000000 ∧
    zpopmin [("job-low", priorityScore "low" 1700000000),
             ("job-urgent", priorityScore "urgent" 1704000000)] =
      some ("job-low", priorityScore "low" 1700000000) := by
  have hlt : priorityScore "low" 1700000000 < priorityScore "urgent" 1704000000 := by
    simp [priorityScore, priorityBase, timestampTerm] <;> norm_num
  refine ⟨?_, hlt, ?_⟩
  · simp [timestampTerm] <;> norm_num
  · simp [zpopmin, not_lt.mpr (le_of_lt hlt)]

/-- Every base score is one of the four literal constants (3.0 being also
the default for unrecognized values). -/
theorem priorityBase_cases (p : String) :
    priorityBase p = 1 ∨ priorityBase p = 2 ∨ priorityBase p = 3 ∨ priorityBase p = 4 := by
  unfold priorityBase
  split_ifs <;> simp

/-- Claim C3 amended: the score is `base + timestamp/1,000,000` with the
stated bases, but the timestamp term is < 1.0 exactly when the timestamp
is below 1,000,000 seconds (long before any realistic enqueue time);
cross-tier ordering is guaranteed only when the two enqueue timestamps
differ by less than 1,000,000 seconds, in which case the strictly smaller
base always yields the strictly smaller score. -/
theorem priority_score_tier_order (p q : String) (t u : ℚ)
    (hbase : priorityBase p < priorityBase q)
    (hnear : |t - u| < 1000000) :
    priorityScore p t < priorityScore q u ∧ (timestampTerm t < 1 ↔ t < 1000000) := by
  have habs := abs_lt.mp hnear
  have hgap : priorityBase p + 1 ≤ priorityBase q := by
    rcases priorityBase_cases p with h | h | h | h <;>
      rcases priorityBase_cases q with g | g | g | g <;>
        rw [h, g] at hbase ⊢ <;> revert hbase <;> norm_num
  constructor
  · unfold priorityScore timestampTerm
    linarith
  · unfold timestampTerm
    constructor <;> intro h <;> linarith

/-- Claim C3 amended witness: an urgent job enqueued two seconds after a
low-priority one scores strictly lower, and the tiny timestamp term 5/10⁶
is indeed < 1. -/
theorem priority_score_tier_order_witness :
    priorityScore "urgent" 5 < priorityScore "low" 3 ∧
    (timestampTerm 5 < 1 ↔ (5 : ℚ) < 1000000) :=
  priority_score_tier_order "urgent" "low" 5 3
    (by simp [priorityBase]) (by norm_num)

/-- Claim C8 amended witness: at the minimal environment the required
checks pass, the optional variables are absent, and construction succeeds;
removing `NODE_ENV` makes it fail. -/
theorem settings_required_iff_witness :
    (mkSettingsApi envOnlyRequired).isOk = true ∧
    mkSettingsApi (fun _ => none) = .error (.missing "NODE_ENV") := by
  constructor
  · exact (settings_required_iff envOnlyRequired).2.2.2.1
      (by intro k hk s hs; fin_cases hk <;> simp [envOnlyRequired] at hs)
      (by unfold envOnlyRequired; simp)
      (by unfold envOnlyRequired; simp)
  · exact (settings_required_iff (fun _ => none)).1 rfl

end Archaeologist
